import Mathlib

/-!
# Chainpulse — verification of the ingest pipeline

Shallow embedding of the chainpulse monitoring daemon (Rust sources under
`src/`): the SHA-256 hashing used for transaction and packet-payload digests,
the JSON deserialization of fungible-token-transfer payloads (`msg.rs`), the
message decoder (`msg.rs`), the store write operations and correlation step
(`collect.rs`, `db.rs`), the collector subscription loop (`collect.rs`),
the stuck-packet sweep (`status.rs`) and the client factory
(`client/factory.rs`).  Machine integers are modeled as `Nat`/`Int` with
explicit wrap-arounds where the Rust code casts.
-/

namespace Chainpulse

/-! ## SHA-256 (the `sha2` crate, FIPS 180-4), over byte lists -/

/-- Addition modulo 2³². -/
def add32 (a b : Nat) : Nat := (a + b) % 4294967296

/-- Right-rotation of a 32-bit word by `n` bits. -/
def rotr32 (n x : Nat) : Nat :=
  ((x >>> n) ||| ((x <<< (32 - n)) % 4294967296)) % 4294967296

/-- SHA-256 Σ₀. -/
def bigSigma0 (x : Nat) : Nat := (rotr32 2 x) ^^^ (rotr32 13 x) ^^^ (rotr32 22 x)

/-- SHA-256 Σ₁. -/
def bigSigma1 (x : Nat) : Nat := (rotr32 6 x) ^^^ (rotr32 11 x) ^^^ (rotr32 25 x)

/-- SHA-256 σ₀. -/
def smallSigma0 (x : Nat) : Nat := (rotr32 7 x) ^^^ (rotr32 18 x) ^^^ (x >>> 3)

/-- SHA-256 σ₁. -/
def smallSigma1 (x : Nat) : Nat := (rotr32 17 x) ^^^ (rotr32 19 x) ^^^ (x >>> 10)

/-- SHA-256 choice function. -/
def chFn (x y z : Nat) : Nat := (x &&& y) ^^^ ((x ^^^ 4294967295) &&& z)

/-- SHA-256 majority function. -/
def majFn (x y z : Nat) : Nat := (x &&& y) ^^^ (x &&& z) ^^^ (y &&& z)

/-- SHA-256 round constants (FIPS 180-4 §4.2.2, written in decimal). -/
def shaK : List Nat := [
  1116352408, 1899447441, 3049323471, 3921009573, 961987163, 1508970993,
  2453635748, 2870763221, 3624381080, 310598401, 607225278, 1426881987,
  1925078388, 2162078206, 2614888103, 3248222580, 3835390401, 4022224774,
  264347078, 604807628, 770255983, 1249150122, 1555081692, 1996064986,
  2554220882, 2821834349, 2952996808, 3210313671, 3336571891, 3584528711,
  113926993, 338241895, 666307205, 773529912, 1294757372, 1396182291,
  1695183700, 1986661051, 2177026350, 2456956037, 2730485921, 2820302411,
  3259730800, 3345764771, 3516065817, 3600352804, 4094571909, 275423344,
  430227734, 506948616, 659060556, 883997877, 958139571, 1322822218,
  1537002063, 1747873779, 1955562222, 2024104815, 2227730452, 2361852424,
  2428436474, 2756734187, 3204031479, 3329325298]

/-- SHA-256 working variables. -/
structure ShaState where
  a : Nat
  b : Nat
  c : Nat
  d : Nat
  e : Nat
  f : Nat
  g : Nat
  h : Nat
  deriving Repr, DecidableEq

/-- SHA-256 initial hash value (FIPS 180-4 §5.3.3, written in decimal). -/
def shaH0 : ShaState :=
  ⟨1779033703, 3144134277, 1013904242, 2773480762,
   1359893119, 2600822924, 528734635, 1541459225⟩

/-- Big-endian bytes of `n`, `count` bytes. -/
def natToBytesBE : Nat → Nat → List Nat
  | 0, _ => []
  | count + 1, n => natToBytesBE count (n / 256) ++ [n % 256]

/-- One 32-bit big-endian word from four bytes. -/
def wordOfBytes (b0 b1 b2 b3 : Nat) : Nat :=
  ((b0 % 256) * 16777216) + ((b1 % 256) * 65536) + ((b2 % 256) * 256) + (b3 % 256)

/-- Group a 64-byte block into sixteen 32-bit words. -/
def bytesToWords : List Nat → List Nat
  | b0 :: b1 :: b2 :: b3 :: rest => wordOfBytes b0 b1 b2 b3 :: bytesToWords rest
  | _ => []

/-- Extend the message schedule, keeping the words built so far in reverse
order: `extendSchedule n ws` prepends `n` further words. -/
def extendSchedule : Nat → List Nat → List Nat
  | 0, ws => ws
  | n + 1, ws =>
    let w2 := ws.getD 1 0
    let w7 := ws.getD 6 0
    let w15 := ws.getD 14 0
    let w16 := ws.getD 15 0
    extendSchedule n
      (add32 (add32 (smallSigma1 w2) w7) (add32 (smallSigma0 w15) w16) :: ws)

/-- The 64-entry message schedule of a block. -/
def schedule (block : List Nat) : List Nat :=
  (extendSchedule 48 (bytesToWords block).reverse).reverse

/-- One SHA-256 round. -/
def shaRound (st : ShaState) (kw : Nat × Nat) : ShaState :=
  let t1 := add32 (add32 st.h (bigSigma1 st.e))
      (add32 (chFn st.e st.f st.g) (add32 kw.1 kw.2))
  let t2 := add32 (bigSigma0 st.a) (majFn st.a st.b st.c)
  ⟨add32 t1 t2, st.a, st.b, st.c, add32 st.d t1, st.e, st.f, st.g⟩

/-- Compress one 64-byte block into the running hash state. -/
def shaCompress (hs : ShaState) (block : List Nat) : ShaState :=
  let st := (List.zip shaK (schedule block)).foldl shaRound hs
  ⟨add32 hs.a st.a, add32 hs.b st.b, add32 hs.c st.c, add32 hs.d st.d,
   add32 hs.e st.e, add32 hs.f st.f, add32 hs.g st.g, add32 hs.h st.h⟩

/-- SHA-256 padding: append `0x80`, zeros, and the 64-bit big-endian bit
length, reaching a multiple of 64 bytes. -/
def shaPad (msg : List Nat) : List Nat :=
  let len := msg.length
  let zeros := (64 - ((len + 9) % 64)) % 64
  msg ++ 0x80 :: List.replicate zeros 0 ++ natToBytesBE 8 ((len * 8) % 18446744073709551616)

/-- Split a list into 64-byte chunks, with `fuel` bounding the recursion
depth (structural recursion so that proofs can evaluate it). -/
def toBlocksAux : Nat → List Nat → List (List Nat)
  | 0, _ => []
  | fuel + 1, l => if l = [] then [] else l.take 64 :: toBlocksAux fuel (l.drop 64)

/-- Split a padded message into 64-byte blocks. -/
def toBlocks (l : List Nat) : List (List Nat) := toBlocksAux l.length l

/-- SHA-256 digest of a byte list, as 32 bytes. -/
def sha256 (msg : List Nat) : List Nat :=
  let final := (toBlocks (shaPad msg)).foldl shaCompress shaH0
  natToBytesBE 4 final.a ++ natToBytesBE 4 final.b ++ natToBytesBE 4 final.c ++
  natToBytesBE 4 final.d ++ natToBytesBE 4 final.e ++ natToBytesBE 4 final.f ++
  natToBytesBE 4 final.g ++ natToBytesBE 4 final.h

/-! ## Hex encodings (`format!("{:x}", ..)` and `subtle_encoding::hex`) -/

/-- Lowercase hex digits: the characters `0`..`9` followed by `a`..`f`. -/
def hexDigitsLower : List Char :=
  (List.range 16).map fun n =>
    if n < 10 then Char.ofNat (n + '0'.toNat) else Char.ofNat (n - 10 + 'a'.toNat)

/-- Uppercase hex digits: the characters `0`..`9` followed by `A`..`F`. -/
def hexDigitsUpper : List Char :=
  (List.range 16).map fun n =>
    if n < 10 then Char.ofNat (n + '0'.toNat) else Char.ofNat (n - 10 + 'A'.toNat)

/-- Lowercase hex rendering of a byte list, two digits per byte
(`format!("{:x}", digest)` on a SHA-256 digest). -/
def hexLower (bytes : List Nat) : String :=
  String.mk (bytes.foldr
    (fun b acc => hexDigitsLower.getD (b / 16 % 16) '0' :: hexDigitsLower.getD (b % 16) '0' :: acc)
    [])

/-- Uppercase hex rendering of a byte list (`subtle_encoding::hex::encode_upper`). -/
def hexUpper (bytes : List Nat) : String :=
  String.mk (bytes.foldr
    (fun b acc => hexDigitsUpper.getD (b / 16 % 16) '0' :: hexDigitsUpper.getD (b % 16) '0' :: acc)
    [])

/-- Value of a lowercase hex digit (`subtle_encoding::hex::decode` accepts
lowercase input). -/
def hexVal (c : Char) : Option Nat :=
  if '0' ≤ c ∧ c ≤ '9' then some (c.toNat - '0'.toNat)
  else if 'a' ≤ c ∧ c ≤ 'f' then some (c.toNat - 'a'.toNat + 10)
  else none

/-- Decode a hex string into bytes; fails on odd length or non-hex characters
(`subtle_encoding::hex::decode`). -/
def hexDecode' : List Char → Option (List Nat)
  | [] => some []
  | [_] => none
  | c1 :: c2 :: rest => do
    let h ← hexVal c1
    let l ← hexVal c2
    let tail ← hexDecode' rest
    pure ((h * 16 + l) :: tail)

/-- Decode a hex `String` into bytes. -/
def hexDecode (s : String) : Option (List Nat) := hexDecode' s.data

/-! ## Integer casts and parsing -/

/-- Rust `as i64` on an unsigned value: wrap into the signed 64-bit range. -/
def asI64 (n : Nat) : Int :=
  let m := n % 18446744073709551616
  if m < 9223372036854775808 then (m : Int) else (m : Int) - 18446744073709551616

/-- Rust `str::parse::<i64>()`: an optional sign followed by one or more
digits, the value within the `i64` range; anything else is an error. -/
def parseI64 (s : String) : Option Int :=
  let core (neg : Bool) (ds : List Char) : Option Int :=
    if ds = [] ∨ ¬ ds.all (fun c => '0' ≤ c ∧ c ≤ '9') then none
    else
      let v : Nat := ds.foldl (fun acc c => acc * 10 + (c.toNat - '0'.toNat)) 0
      if neg then
        if v ≤ 9223372036854775808 then some (-(v : Int)) else none
      else
        if v ≤ 9223372036854775807 then some (v : Int) else none
  match s.data with
  | '-' :: rest => core true rest
  | '+' :: rest => core false rest
  | ds => core false ds

/-! ## JSON values and parsing (model of `serde_json`)

`serde_json::from_slice` is modeled as: UTF-8-decode the bytes, parse one
JSON value, require only whitespace to remain, then deserialize the value
into the target record. -/

/-- UTF-8 decoding, with `fuel` bounding recursion; rejects overlong
encodings, surrogates and out-of-range code points. -/
def utf8DecodeAux : Nat → List Nat → Option (List Char)
  | _, [] => some []
  | 0, _ :: _ => none
  | fuel + 1, b :: rest =>
    if b < 0x80 then
      (utf8DecodeAux fuel rest).map (Char.ofNat b :: ·)
    else if 0xC0 ≤ b ∧ b < 0xE0 then
      match rest with
      | b1 :: rest' =>
        if 0x80 ≤ b1 ∧ b1 < 0xC0 then
          let cp := (b - 0xC0) * 64 + (b1 - 0x80)
          if 0x80 ≤ cp then (utf8DecodeAux fuel rest').map (Char.ofNat cp :: ·) else none
        else none
      | _ => none
    else if 0xE0 ≤ b ∧ b < 0xF0 then
      match rest with
      | b1 :: b2 :: rest' =>
        if (0x80 ≤ b1 ∧ b1 < 0xC0) ∧ (0x80 ≤ b2 ∧ b2 < 0xC0) then
          let cp := (b - 0xE0) * 4096 + (b1 - 0x80) * 64 + (b2 - 0x80)
          if 0x800 ≤ cp ∧ ¬ (0xD800 ≤ cp ∧ cp ≤ 0xDFFF) then
            (utf8DecodeAux fuel rest').map (Char.ofNat cp :: ·)
          else none
        else none
      | _ => none
    else if 0xF0 ≤ b ∧ b < 0xF8 then
      match rest with
      | b1 :: b2 :: b3 :: rest' =>
        if (0x80 ≤ b1 ∧ b1 < 0xC0) ∧ (0x80 ≤ b2 ∧ b2 < 0xC0) ∧ (0x80 ≤ b3 ∧ b3 < 0xC0) then
          let cp := (b - 0xF0) * 262144 + (b1 - 0x80) * 4096 + (b2 - 0x80) * 64 + (b3 - 0x80)
          if 0x10000 ≤ cp ∧ cp ≤ 0x10FFFF then
            (utf8DecodeAux fuel rest').map (Char.ofNat cp :: ·)
          else none
        else none
      | _ => none
    else none

/-- UTF-8 decode a byte list. -/
def utf8Decode (bytes : List Nat) : Option (List Char) :=
  utf8DecodeAux bytes.length bytes

/-- JSON values; numbers keep their raw text. -/
inductive Json where
  | str (s : String)
  | num (raw : String)
  | bool (b : Bool)
  | null
  | arr (items : List Json)
  | obj (members : List (String × Json))

/-- JSON whitespace. -/
def isJsonWs (c : Char) : Bool := c = ' ' ∨ c = '\t' ∨ c = '\n' ∨ c = '\r'

/-- Drop leading JSON whitespace. -/
def skipWs : List Char → List Char
  | [] => []
  | c :: rest => if isJsonWs c then skipWs rest else c :: rest

/-- Parse the body of a JSON string after the opening quote; returns the
content and the input after the closing quote.  Control characters must be
escaped; `\uXXXX` escapes yield the code point directly. -/
def parseStringBody : List Char → Option (List Char × List Char)
  | [] => none
  | '"' :: rest => some ([], rest)
  | '\\' :: 'u' :: h1 :: h2 :: h3 :: h4 :: rest => do
    let v1 ← hexVal h1.toLower
    let v2 ← hexVal h2.toLower
    let v3 ← hexVal h3.toLower
    let v4 ← hexVal h4.toLower
    let cp := v1 * 4096 + v2 * 256 + v3 * 16 + v4
    let (s, r) ← parseStringBody rest
    pure (Char.ofNat cp :: s, r)
  | '\\' :: e :: rest => do
    let c ← match e with
      | '"' => some '"'
      | '\\' => some '\\'
      | '/' => some '/'
      | 'b' => some (Char.ofNat 8)
      | 'f' => some (Char.ofNat 12)
      | 'n' => some '\n'
      | 'r' => some '\r'
      | 't' => some '\t'
      | _ => none
    let (s, r) ← parseStringBody rest
    pure (c :: s, r)
  | c :: rest =>
    if c.toNat < 0x20 then none
    else (parseStringBody rest).map (fun p => (c :: p.1, p.2))

/-- Is an ASCII digit? -/
def isDigitCh (c : Char) : Bool := '0' ≤ c ∧ c ≤ '9'

/-- Parse the digits of a JSON integer part: `0`, or a nonzero digit followed
by digits. -/
def parseIntDigits : List Char → Option (List Char × List Char)
  | '0' :: rest => some (['0'], rest)
  | c :: rest =>
    if isDigitCh c ∧ c ≠ '0' then
      some (c :: rest.takeWhile isDigitCh, rest.dropWhile isDigitCh)
    else none
  | [] => none

/-- Parse a JSON fraction part: empty, or `.` followed by one or more
digits (`.` with no digit is an error). -/
def parseFrac : List Char → Option (List Char × List Char)
  | '.' :: rest =>
    match rest with
    | d :: _ =>
      if isDigitCh d then some ('.' :: rest.takeWhile isDigitCh, rest.dropWhile isDigitCh)
      else none
    | [] => none
  | cs => some ([], cs)

/-- Parse a JSON exponent part: empty, or `e`/`E`, an optional sign, and one
or more digits; a dangling `e` leaves the input unconsumed. -/
def parseExp (cs : List Char) : List Char × List Char :=
  match cs with
  | e :: rest =>
    if e = 'e' ∨ e = 'E' then
      let (sgn, rest') := match rest with
        | s :: r => if s = '+' ∨ s = '-' then ([s], r) else (([] : List Char), rest)
        | [] => (([] : List Char), rest)
      match rest' with
      | d :: _ =>
        if isDigitCh d then
          (e :: sgn ++ rest'.takeWhile isDigitCh, rest'.dropWhile isDigitCh)
        else ([], cs)
      | [] => ([], cs)
    else ([], cs)
  | [] => ([], cs)

/-- Parse a JSON number (grammar `-? int frac? exp?`), returning its raw
text. -/
def parseNumber (cs : List Char) : Option (List Char × List Char) := do
  let (sign, cs₁) := match cs with
    | '-' :: rest => (['-'], rest)
    | _ => (([] : List Char), cs)
  let (intPart, cs₂) ← parseIntDigits cs₁
  let (fracPart, cs₃) ← parseFrac cs₂
  let (expPart, cs₄) := parseExp cs₃
  pure (sign ++ intPart ++ fracPart ++ expPart, cs₄)

mutual

/-- Parse one JSON value; `fuel` bounds the nesting recursion.
`parseVal`, `parseArrItems` and `parseObjMembers` are mutually recursive. -/
def parseVal : Nat → List Char → Option (Json × List Char)
  | 0, _ => none
  | fuel + 1, cs =>
    match skipWs cs with
    | '{' :: rest =>
      (match skipWs rest with
       | '}' :: r => some (Json.obj [], r)
       | cs' => parseObjMembers fuel [] cs')
    | '[' :: rest =>
      (match skipWs rest with
       | ']' :: r => some (Json.arr [], r)
       | cs' => parseArrItems fuel [] cs')
    | '"' :: rest => (parseStringBody rest).map (fun p => (Json.str (String.mk p.1), p.2))
    | 't' :: 'r' :: 'u' :: 'e' :: rest => some (Json.bool true, rest)
    | 'f' :: 'a' :: 'l' :: 's' :: 'e' :: rest => some (Json.bool false, rest)
    | 'n' :: 'u' :: 'l' :: 'l' :: rest => some (Json.null, rest)
    | cs' => (parseNumber cs').map (fun p => (Json.num (String.mk p.1), p.2))

/-- Parse the remaining items of a non-empty JSON array. -/
def parseArrItems : Nat → List Json → List Char → Option (Json × List Char)
  | 0, _, _ => none
  | fuel + 1, acc, cs => do
    let (v, rest) ← parseVal fuel cs
    match skipWs rest with
    | ',' :: r => parseArrItems fuel (acc ++ [v]) r
    | ']' :: r => some (Json.arr (acc ++ [v]), r)
    | _ => none

/-- Parse the remaining members of a non-empty JSON object. -/
def parseObjMembers : Nat → List (String × Json) → List Char → Option (Json × List Char)
  | 0, _, _ => none
  | fuel + 1, acc, cs =>
    match skipWs cs with
    | '"' :: rest => do
      let (key, r₁) ← parseStringBody rest
      match skipWs r₁ with
      | ':' :: r₂ => do
        let (v, r₃) ← parseVal fuel r₂
        match skipWs r₃ with
        | ',' :: r₄ => parseObjMembers fuel (acc ++ [(String.mk key, v)]) r₄
        | '}' :: r₄ => some (Json.obj (acc ++ [(String.mk key, v)]), r₄)
        | _ => none
      | _ => none
    | _ => none

end

/-- Parse a whole JSON document from bytes: UTF-8 decode, one value, only
whitespace after (`serde_json` top level). -/
def parseJsonBytes (bytes : List Nat) : Option Json := do
  let chars ← utf8Decode bytes
  let (v, rest) ← parseVal (chars.length + 1) chars
  if skipWs rest = [] then some v else none

/-! ## `msg.rs`: FungibleTokenPacketData -/

/-- IBC fungible token transfer packet data (`msg.rs`); `memo` carries
`#[serde(default)]`. -/
structure FungibleTokenPacketData where
  denom : String
  amount : String
  sender : String
  receiver : String
  memo : String
  deriving DecidableEq, Repr

/-- Partial field assignments while deserializing `FungibleTokenPacketData`. -/
structure FtpdFields where
  denom : Option String := none
  amount : Option String := none
  sender : Option String := none
  receiver : Option String := none
  memo : Option String := none

/-- Record one string field, failing on a duplicate or a non-string value
(serde derive semantics). -/
def setStrField (cur : Option String) (v : Json) : Option (Option String) :=
  match cur, v with
  | some _, _ => none
  | none, Json.str s => some (some s)
  | none, _ => none

/-- One member step of the `FungibleTokenPacketData` deserializer: known
keys set their field (failing on duplicates and non-strings), unknown keys
are ignored. -/
def ftpdStep (f : FtpdFields) (kv : String × Json) : Option FtpdFields :=
  if kv.1 = "denom" then (setStrField f.denom kv.2).map (fun d => { f with denom := d })
  else if kv.1 = "amount" then (setStrField f.amount kv.2).map (fun d => { f with amount := d })
  else if kv.1 = "sender" then (setStrField f.sender kv.2).map (fun d => { f with sender := d })
  else if kv.1 = "receiver" then
    (setStrField f.receiver kv.2).map (fun d => { f with receiver := d })
  else if kv.1 = "memo" then (setStrField f.memo kv.2).map (fun d => { f with memo := d })
  else some f

/-- Deserialize `FungibleTokenPacketData` from a JSON value: an object with
required string fields `denom`, `amount`, `sender`, `receiver`, an optional
string `memo` defaulting to `""`, and unknown keys ignored. -/
def FungibleTokenPacketData.fromJson (j : Json) : Option FungibleTokenPacketData :=
  match j with
  | Json.obj members =>
    (match members.foldlM ftpdStep {} with
     | none => none
     | some fields =>
       match fields.denom, fields.amount, fields.sender, fields.receiver with
       | some denom, some amount, some sender, some receiver =>
         some ⟨denom, amount, sender, receiver, fields.memo.getD ""⟩
       | _, _, _, _ => none)
  | _ => none

/-- `serde_json::from_slice::<FungibleTokenPacketData>`. -/
def FungibleTokenPacketData.fromSlice (bytes : List Nat) : Option FungibleTokenPacketData :=
  (parseJsonBytes bytes).bind FungibleTokenPacketData.fromJson

/-! ## `msg.rs`: packets, messages, decoding -/

/-- IBC client height (`ibc_proto::ibc::core::client::v1::Height`). -/
structure ClientHeight where
  revision_number : Nat
  revision_height : Nat
  deriving DecidableEq, Repr

/-- An IBC packet (`ibc_proto::ibc::core::channel::v1::Packet`); `data` is
the raw payload bytes, `sequence` and `timeout_timestamp` are `u64`. -/
structure Packet where
  sequence : Nat
  source_port : String
  source_channel : String
  destination_port : String
  destination_channel : String
  data : List Nat
  timeout_height : Option ClientHeight
  timeout_timestamp : Nat
  deriving DecidableEq, Repr

/-- `MsgRecvPacket`: the fields `collect.rs`/`msg.rs` use. -/
structure MsgRecvPacket where
  packet : Option Packet
  signer : String
  deriving DecidableEq, Repr

/-- `MsgAcknowledgement`: the fields used. -/
structure MsgAcknowledgement where
  packet : Option Packet
  signer : String
  deriving DecidableEq, Repr

/-- `MsgTimeout`: the fields used. -/
structure MsgTimeout where
  packet : Option Packet
  signer : String
  deriving DecidableEq, Repr

/-- `MsgTransfer`: the fields used (`sender` doubles as the signer). -/
structure MsgTransfer where
  source_port : String
  source_channel : String
  sender : String
  receiver : String
  deriving DecidableEq, Repr

/-- The decoded content of a protobuf `Any` payload.  Protobuf byte strings
cannot be re-implemented here, so the `value` bytes of an `Any` are modeled
by their decode result: `garbage` stands for bytes that do not decode as the
type the URL names. -/
inductive ProtoVal where
  | recvPacket (m : MsgRecvPacket)
  | acknowledgement (m : MsgAcknowledgement)
  | timeoutMsg (m : MsgTimeout)
  | transfer (m : MsgTransfer)
  | createClient (signer : String)
  | updateClient (signer : String)
  | chanOpenInit (signer : String)
  | chanOpenTry (signer : String)
  | chanOpenAck (signer : String)
  | chanOpenConfirm (signer : String)
  | garbage
  deriving DecidableEq, Repr

/-- A protobuf `Any` message (`{type_url, value}`). -/
structure AnyMsg where
  type_url : String
  value : ProtoVal
  deriving DecidableEq, Repr

/-- The tagged union of recognized IBC messages (`enum Msg` in `msg.rs`). -/
inductive Msg where
  | CreateClient (signer : String)
  | UpdateClient (signer : String)
  | RecvPacket (m : MsgRecvPacket)
  | Acknowledgement (m : MsgAcknowledgement)
  | Timeout (m : MsgTimeout)
  | ChanOpenInit (signer : String)
  | ChanOpenTry (signer : String)
  | ChanOpenAck (signer : String)
  | ChanOpenConfirm (signer : String)
  | Transfer (m : MsgTransfer)
  | Other (a : AnyMsg)
  deriving DecidableEq, Repr

namespace Msg

/-- `Msg::decode`: dispatch on the type URL; a recognized URL whose payload
does not decode is an error, an unrecognized URL is passed through as
`Other`. -/
def decode (msg : AnyMsg) : Except String Msg :=
  if msg.type_url = "/ibc.core.client.v1.MsgCreateClient" then
    match msg.value with
    | ProtoVal.createClient s => Except.ok (CreateClient s)
    | _ => Except.error "decode error"
  else if msg.type_url = "/ibc.core.client.v1.MsgUpdateClient" then
    match msg.value with
    | ProtoVal.updateClient s => Except.ok (UpdateClient s)
    | _ => Except.error "decode error"
  else if msg.type_url = "/ibc.core.channel.v1.MsgTimeout" then
    match msg.value with
    | ProtoVal.timeoutMsg m => Except.ok (Timeout m)
    | _ => Except.error "decode error"
  else if msg.type_url = "/ibc.core.channel.v1.MsgRecvPacket" then
    match msg.value with
    | ProtoVal.recvPacket m => Except.ok (RecvPacket m)
    | _ => Except.error "decode error"
  else if msg.type_url = "/ibc.core.channel.v1.MsgAcknowledgement" then
    match msg.value with
    | ProtoVal.acknowledgement m => Except.ok (Acknowledgement m)
    | _ => Except.error "decode error"
  else if msg.type_url = "/ibc.core.channel.v1.MsgChannelOpenInit" then
    match msg.value with
    | ProtoVal.chanOpenInit s => Except.ok (ChanOpenInit s)
    | _ => Except.error "decode error"
  else if msg.type_url = "/ibc.core.channel.v1.MsgChannelOpenTry" then
    match msg.value with
    | ProtoVal.chanOpenTry s => Except.ok (ChanOpenTry s)
    | _ => Except.error "decode error"
  else if msg.type_url = "/ibc.core.channel.v1.MsgChannelOpenAck" then
    match msg.value with
    | ProtoVal.chanOpenAck s => Except.ok (ChanOpenAck s)
    | _ => Except.error "decode error"
  else if msg.type_url = "/ibc.core.channel.v1.MsgChannelOpenConfirm" then
    match msg.value with
    | ProtoVal.chanOpenConfirm s => Except.ok (ChanOpenConfirm s)
    | _ => Except.error "decode error"
  else if msg.type_url = "/ibc.applications.transfer.v1.MsgTransfer" then
    match msg.value with
    | ProtoVal.transfer m => Except.ok (Transfer m)
    | _ => Except.error "decode error"
  else
    Except.ok (Other msg)

/-- `Msg::is_ibc`. -/
def is_ibc : Msg → Bool
  | Other other => other.type_url.startsWith "/ibc"
  | _ => true

/-- `Msg::is_relevant`. -/
def is_relevant : Msg → Bool
  | RecvPacket _ | Acknowledgement _ | Timeout _ | Transfer _ => true
  | _ => false

/-- `Msg::packet`. -/
def packet : Msg → Option Packet
  | RecvPacket m => m.packet
  | Acknowledgement m => m.packet
  | Timeout m => m.packet
  | _ => none

/-- `Msg::signer`. -/
def signer : Msg → Option String
  | CreateClient s => some s
  | UpdateClient s => some s
  | RecvPacket m => some m.signer
  | Acknowledgement m => some m.signer
  | Timeout m => some m.signer
  | ChanOpenInit s => some s
  | ChanOpenTry s => some s
  | ChanOpenAck s => some s
  | ChanOpenConfirm s => some s
  | Transfer m => some m.sender
  | Other _ => none

/-- `Msg::transfer`. -/
def transfer : Msg → Option MsgTransfer
  | Transfer m => some m
  | _ => none

end Msg

/-- The enhanced packet info extracted for storage (`msg.rs`). -/
structure UniversalPacketInfo where
  sequence : Nat
  source_channel : String
  destination_channel : String
  source_port : String
  destination_port : String
  timeout_timestamp : Option Nat
  timeout_height : Option ClientHeight
  sender : Option String
  receiver : Option String
  amount : Option String
  denom : Option String
  transfer_memo : Option String
  ibc_version : String
  data_hash : String
  deriving DecidableEq, Repr

/-- `UniversalPacketInfo::from_packet`: extract user data if the packet is a
fungible token transfer, null the zero timeout timestamp, and hash the raw
payload bytes. -/
def UniversalPacketInfo.from_packet (packet : Packet) : UniversalPacketInfo :=
  let userData : Option String × Option String × Option String × Option String × Option String :=
    if packet.source_port = "transfer" then
      match FungibleTokenPacketData.fromSlice packet.data with
      | some ft_data =>
        (some ft_data.sender, some ft_data.receiver, some ft_data.denom,
         some ft_data.amount, some ft_data.memo)
      | none => (none, none, none, none, none)
    else (none, none, none, none, none)
  let data_hash := hexLower (sha256 packet.data)
  { sequence := packet.sequence
    source_channel := packet.source_channel
    destination_channel := packet.destination_channel
    source_port := packet.source_port
    destination_port := packet.destination_port
    timeout_timestamp :=
      if packet.timeout_timestamp = 0 then none else some packet.timeout_timestamp
    timeout_height := packet.timeout_height
    sender := userData.1
    receiver := userData.2.1
    amount := userData.2.2.2.1
    denom := userData.2.2.1
    transfer_memo := userData.2.2.2.2
    ibc_version := "v1"
    data_hash := data_hash }

/-! ## `db.rs`: rows and store state

The SQLite store is modeled as in-memory lists in rowid order.  The `txs`
table has the unique index `txs_unique ON txs (chain, hash)`; the `packets`
table has **no** unique index (`create_indexes` in `db.rs` creates only
non-unique ones on it), so `INSERT OR IGNORE INTO packets` never ignores. -/

/-- A row of the `txs` table. -/
structure TxRow where
  id : Nat
  chain : String
  height : Int
  hash : String
  memo : String
  created_at : Nat
  deriving DecidableEq, Repr

/-- A row of the `packets` table (all columns written by the ingest paths). -/
structure PacketRow where
  id : Nat
  tx_id : Nat
  sequence : Int
  src_channel : String
  src_port : String
  dst_channel : String
  dst_port : String
  msg_type_url : String
  signer : String
  effected : Bool
  effected_signer : Option String
  effected_tx : Option Nat
  sender : Option String
  receiver : Option String
  denom : Option String
  amount : Option String
  ibc_version : Option String
  timeout_timestamp : Option Int
  timeout_height_revision_number : Option Int
  timeout_height_revision_height : Option Int
  data_hash : Option String
  created_at : Nat
  deriving DecidableEq, Repr

/-- One metric-registry call, recorded with its label values
(`metrics.rs`). -/
inductive MetricEvent where
  | chainpulseTxs (chain_id : String)
  | chainpulsePackets (chain_id : String)
  | chainpulseTimeouts (chain_id : String)
  | ibcEffectedPackets (chain_id src_channel src_port dst_channel dst_port signer memo : String)
  | ibcUneffectedPackets (chain_id src_channel src_port dst_channel dst_port signer memo : String)
  | ibcFrontrunCounter (chain_id src_channel src_port dst_channel dst_port signer
      frontrunned_by memo effected_memo : String)
  deriving DecidableEq, Repr

/-- The store plus the metric registry, as seen by one collector: table rows
in rowid order, the next autoincrement ids, and the chronological log of
metric increments. -/
structure Store where
  txs : List TxRow
  packets : List PacketRow
  next_tx_id : Nat
  next_packet_id : Nat
  metrics : List MetricEvent
  deriving DecidableEq, Repr

/-- The store of a fresh database. -/
def Store.empty : Store := ⟨[], [], 1, 1, []⟩

/-- Record one metric call. -/
def emit (s : Store) (e : MetricEvent) : Store :=
  { s with metrics := s.metrics ++ [e] }

/-- `INSERT OR IGNORE INTO txs` (unique on `(chain, hash)`) followed by
`SELECT * FROM txs WHERE chain = ? AND hash = ? LIMIT 1`. -/
def insertTxRow (s : Store) (chain : String) (height : Int) (hash memo : String)
    (now : Nat) : Store × TxRow :=
  match s.txs.find? (fun t => t.chain == chain && t.hash == hash) with
  | some t => (s, t)
  | none =>
    let row : TxRow := ⟨s.next_tx_id, chain, height, hash, memo, now⟩
    ({ s with txs := s.txs ++ [row], next_tx_id := s.next_tx_id + 1 }, row)

/-- `INSERT OR IGNORE INTO packets`: with no unique index on `packets`, the
row is always inserted. -/
def insertPacketRow (s : Store) (row : PacketRow) : Store :=
  { s with packets := s.packets ++ [row], next_packet_id := s.next_packet_id + 1 }

/-! ## `collect.rs`: transactions and messages of a block -/

/-- A decoded transaction body: memo and the raw `Any` messages. -/
structure TxBody where
  memo : String
  messages : List AnyMsg
  deriving DecidableEq, Repr

/-- A decoded transaction; `bytes` is its canonical protobuf encoding
(`encode_to_vec`), over which the hash is computed. -/
structure TxContent where
  bytes : List Nat
  body : Option TxBody
  deriving DecidableEq, Repr

/-- `insert_tx` in `collect.rs`: hash the canonical bytes (uppercase hex
SHA-256), default the memo of a missing body to `""`, insert-or-ignore and
fetch the row. -/
def insert_tx (s : Store) (chain : String) (height : Nat) (tx : TxContent)
    (now : Nat) : Store × TxRow :=
  let hash := hexUpper (sha256 tx.bytes)
  let memo := (tx.body.map (fun b => b.memo)).getD ""
  insertTxRow s chain (asI64 height) hash memo now

/-- `process_transfer`: log-only, bumps the packet counter, no row. -/
def process_transfer (s : Store) (chain : String) (_tx_row : TxRow)
    (_type_url : String) (_transfer : MsgTransfer) : Store :=
  emit s (MetricEvent.chainpulsePackets chain)

/-- The probe of the correlation step: first `packets` row matching the
six-part key (`SELECT .. LIMIT 1`, rowid order). -/
def probeExisting (s : Store) (packet : Packet) (type_url : String) : Option PacketRow :=
  s.packets.find? (fun r =>
    r.src_channel == packet.source_channel &&
    r.src_port == packet.source_port &&
    r.dst_channel == packet.destination_channel &&
    r.dst_port == packet.destination_port &&
    r.sequence == asI64 packet.sequence &&
    r.msg_type_url == type_url)

/-- `process_msg`: the transfer branch counts the packet twice (once before
`process_transfer` and once inside it) and writes no row; the packet branch
runs the correlation step: count, probe, emit effected or
uneffected+frontrun metrics, and insert the new row with
`effected = existing.is_none()` and back-references to the winner.
`msg.signer()` is `Some` for every packet-carrying variant, so the `""`
default is never taken on the packet branch.  Errors (the winner's
transaction missing from `txs`) carry the partially updated store. -/
def process_msg (s : Store) (chain : String) (tx_row : TxRow) (type_url : String)
    (msg : Msg) (now : Nat) : Except (Store × String) Store :=
  match msg.transfer with
  | some t =>
    let s := emit s (MetricEvent.chainpulsePackets chain)
    Except.ok (process_transfer s chain tx_row type_url t)
  | none =>
  match msg.packet with
  | none => Except.ok s
  | some packet =>
    let packet_info := UniversalPacketInfo.from_packet packet
    let s := emit s (MetricEvent.chainpulsePackets chain)
    let existing := probeExisting s packet type_url
    let signerStr := (msg.signer).getD ""
    let row : PacketRow :=
      { id := s.next_packet_id
        tx_id := tx_row.id
        sequence := asI64 packet.sequence
        src_channel := packet.source_channel
        src_port := packet.source_port
        dst_channel := packet.destination_channel
        dst_port := packet.destination_port
        msg_type_url := type_url
        signer := signerStr
        effected := existing.isNone
        effected_signer := existing.map (fun r => r.signer)
        effected_tx := existing.map (fun r => r.tx_id)
        sender := packet_info.sender
        receiver := packet_info.receiver
        denom := packet_info.denom
        amount := packet_info.amount
        ibc_version := some packet_info.ibc_version
        timeout_timestamp := packet_info.timeout_timestamp.map asI64
        timeout_height_revision_number :=
          packet_info.timeout_height.map (fun h => asI64 h.revision_number)
        timeout_height_revision_height :=
          packet_info.timeout_height.map (fun h => asI64 h.revision_height)
        data_hash := some packet_info.data_hash
        created_at := now }
    match existing with
    | some ex =>
      match s.txs.find? (fun t => t.id == ex.tx_id) with
      | none => Except.error (s, "no rows returned")
      | some effected_tx =>
        let s := emit s (MetricEvent.ibcUneffectedPackets chain
          packet.source_channel packet.source_port
          packet.destination_channel packet.destination_port signerStr tx_row.memo)
        let s := emit s (MetricEvent.ibcFrontrunCounter chain
          packet.source_channel packet.source_port
          packet.destination_channel packet.destination_port signerStr
          ex.signer tx_row.memo effected_tx.memo)
        Except.ok (insertPacketRow s row)
    | none =>
      let s := emit s (MetricEvent.ibcEffectedPackets chain
        packet.source_channel packet.source_port
        packet.destination_channel packet.destination_port signerStr tx_row.memo)
      Except.ok (insertPacketRow s row)

/-- The message loop of a transaction: decode each `Any`; decode failures
are warned and skipped; non-IBC and irrelevant messages are skipped;
relevant ones go through `process_msg`. -/
def processMsgs (s : Store) (chain : String) (tx_row : TxRow) (now : Nat) :
    List AnyMsg → Except (Store × String) Store
  | [] => Except.ok s
  | a :: rest =>
    match Msg.decode a with
    | Except.error _ => processMsgs s chain tx_row now rest
    | Except.ok msg =>
      if msg.is_ibc ∧ msg.is_relevant then
        match process_msg s chain tx_row a.type_url msg now with
        | Except.error es => Except.error es
        | Except.ok s' => processMsgs s' chain tx_row now rest
      else processMsgs s chain tx_row now rest

/-- Processing of one raw transaction of a block: count it, decode the
envelope (`?`, fatal on failure; `none` models undecodable bytes), insert
the transaction row, then run the message loop (`ok_or("missing tx body")`
is also fatal). -/
def processTx (s : Store) (chain : String) (height : Nat) (now : Nat) :
    Option TxContent → Except (Store × String) Store
  | none => Except.error (emit s (MetricEvent.chainpulseTxs chain), "tx decode error")
  | some tx =>
    let s := emit s (MetricEvent.chainpulseTxs chain)
    let (s, tx_row) := insert_tx s chain height tx now
    match tx.body with
    | none => Except.error (s, "missing tx body")
    | some body => processMsgs s chain tx_row now body.messages

/-- The transaction loop of one block. -/
def processTxs (s : Store) (chain : String) (height : Nat) (now : Nat) :
    List (Option TxContent) → Except (Store × String) Store
  | [] => Except.ok s
  | tx :: rest =>
    match processTx s chain height now tx with
    | Except.error es => Except.error es
    | Except.ok s' => processTxs s' chain height now rest

/-! ## `collect.rs`: event-derived rows -/

/-- A per-transaction event from block results (`client::TxEvent`). -/
structure TxEvent where
  type_str : String
  attributes : List (String × String)
  deriving DecidableEq, Repr

/-- A transaction result from block results (`client::TxResult`). -/
structure TxResult where
  code : Nat
  events : List TxEvent
  deriving DecidableEq, Repr

/-- Attribute lookup through the `HashMap` the handlers build: a later
occurrence of a key overwrites an earlier one. -/
def attrLookup (attrs : List (String × String)) (k : String) : Option String :=
  ((attrs.filter (fun a => a.1 == k)).getLast?).map (fun a => a.2)

/-- `process_send_packet_event`: read the packet attributes (defaults on
missing or unparseable ones), extract user data for `transfer`-port hex
payloads, count the packet, and insert a `send_packet` row with
`effected = 0`, signer `""`, and the raw `packet_data` attribute as
`data_hash`. -/
def process_send_packet_event (s : Store) (chain : String) (tx_row : TxRow)
    (event : TxEvent) (now : Nat) : Store :=
  let get := attrLookup event.attributes
  let sequence : Int := ((get "packet_sequence").bind parseI64).getD 0
  let src_channel := (get "packet_src_channel").getD ""
  let src_port := (get "packet_src_port").getD ""
  let dst_channel := (get "packet_dst_channel").getD ""
  let dst_port := (get "packet_dst_port").getD ""
  let timeout_timestamp := (get "packet_timeout_timestamp").bind parseI64
  let packet_data_hex := (get "packet_data").getD ""
  let userData : Option String × Option String × Option String × Option String :=
    if src_port = "transfer" ∧ packet_data_hex ≠ "" then
      match hexDecode packet_data_hex with
      | some data_bytes =>
        match FungibleTokenPacketData.fromSlice data_bytes with
        | some ft_data =>
          (some ft_data.sender, some ft_data.receiver, some ft_data.amount, some ft_data.denom)
        | none => (none, none, none, none)
      | none => (none, none, none, none)
    else (none, none, none, none)
  let s := emit s (MetricEvent.chainpulsePackets chain)
  insertPacketRow s
    { id := s.next_packet_id
      tx_id := tx_row.id
      sequence := sequence
      src_channel := src_channel
      src_port := src_port
      dst_channel := dst_channel
      dst_port := dst_port
      msg_type_url := "send_packet"
      signer := ""
      effected := false
      effected_signer := none
      effected_tx := none
      sender := userData.1
      receiver := userData.2.1
      denom := userData.2.2.2
      amount := userData.2.2.1
      ibc_version := some "v1"  -- column default `'v1'` applies: not in the column list
      timeout_timestamp := timeout_timestamp
      timeout_height_revision_number := none
      timeout_height_revision_height := none
      data_hash := some packet_data_hex
      created_at := now }

/-- `process_acknowledge_packet_event`: update every `send_packet` row
matching `(sequence, src_channel, dst_channel)` to `effected = 1` with
`effected_tx` pointing at the current transaction. -/
def process_acknowledge_packet_event (s : Store) (tx_row : TxRow)
    (event : TxEvent) : Store :=
  let get := attrLookup event.attributes
  let sequence : Int := ((get "packet_sequence").bind parseI64).getD 0
  let src_channel := (get "packet_src_channel").getD ""
  let dst_channel := (get "packet_dst_channel").getD ""
  { s with packets := s.packets.map (fun r =>
      if r.sequence == sequence && r.src_channel == src_channel &&
          r.dst_channel == dst_channel && r.msg_type_url == "send_packet" then
        { r with effected := true, effected_tx := some tx_row.id }
      else r) }

/-- `process_timeout_packet_event`: like the acknowledge update, but also
rewrites `msg_type_url` to `timeout_packet`. -/
def process_timeout_packet_event (s : Store) (tx_row : TxRow)
    (event : TxEvent) : Store :=
  let get := attrLookup event.attributes
  let sequence : Int := ((get "packet_sequence").bind parseI64).getD 0
  let src_channel := (get "packet_src_channel").getD ""
  let dst_channel := (get "packet_dst_channel").getD ""
  { s with packets := s.packets.map (fun r =>
      if r.sequence == sequence && r.src_channel == src_channel &&
          r.dst_channel == dst_channel && r.msg_type_url == "send_packet" then
        { r with effected := true, effected_tx := some tx_row.id,
                 msg_type_url := "timeout_packet" }
      else r) }

/-- `process_tx_events`: dispatch each event by type; `recv_packet` is
log-only, other types are skipped. -/
def process_tx_events (s : Store) (chain : String) (tx_row : TxRow)
    (now : Nat) : List TxEvent → Store
  | [] => s
  | event :: rest =>
    let s' :=
      if event.type_str = "send_packet" then
        process_send_packet_event s chain tx_row event now
      else if event.type_str = "recv_packet" then
        s
      else if event.type_str = "acknowledge_packet" then
        process_acknowledge_packet_event s tx_row event
      else if event.type_str = "timeout_packet" then
        process_timeout_packet_event s tx_row event
      else s
    process_tx_events s' chain tx_row now rest

/-- The block-results loop of `collect`: for each indexed transaction
result whose raw transaction exists in the block, decode it again (`?`,
fatal on failure), insert-or-fetch its row, and process its events. -/
def processBlockResults (s : Store) (chain : String) (height : Nat) (now : Nat)
    (blockData : List (Option TxContent)) :
    List (Nat × TxResult) → Except (Store × String) Store
  | [] => Except.ok s
  | (tx_idx, tx_result) :: rest =>
    match blockData.get? tx_idx with
    | none => processBlockResults s chain height now blockData rest
    | some none => Except.error (s, "tx decode error")
    | some (some tx) =>
      let (s, tx_row) := insert_tx s chain height tx now
      let s := process_tx_events s chain tx_row now tx_result.events
      processBlockResults s chain height now blockData rest

/-! ## `collect.rs`: the subscription loop -/

/-- A new block as carried by the subscription event, together with the
block-results answer the client would give for its height (`none` models a
failed `get_block_results`, which is logged and ignored). -/
structure Block where
  height : Nat
  data : List (Option TxContent)
  results : Option (List TxResult)
  deriving DecidableEq, Repr

/-- Block processing of one block: the transaction loop, then — when the
client advertises event support — the block-results loop. -/
def processBlock (supports_events : Bool) (s : Store) (chain : String)
    (b : Block) (now : Nat) : Except (Store × String) Store :=
  match processTxs s chain b.height now b.data with
  | Except.error es => Except.error es
  | Except.ok s₁ =>
    if supports_events then
      match b.results with
      | some block_results => processBlockResults s₁ chain b.height now b.data block_results.enum
      | none => Except.ok s₁  -- "Could not fetch block results" is logged and ignored
    else Except.ok s₁

/-- `NEWBLOCK_TIMEOUT`, in seconds. -/
def NEWBLOCK_TIMEOUT : Nat := 60

/-- `DISCONNECT_AFTER_BLOCKS`. -/
def DISCONNECT_AFTER_BLOCKS : Nat := 100

/-- The outcome type of a collector iteration (`enum Outcome` in
`collect.rs`): its only constructors are the deadline expiry and the
block-count rotation. -/
inductive Outcome where
  | Timeout (secs : Nat)
  | BlockElapsed (blocks : Nat)
  deriving DecidableEq, Repr

/-- The payload of one subscription event (`event.data`): a `NewBlock`
(whose block field is optional) or some other event kind. -/
inductive EventData where
  | newBlock (block : Option Block)
  | other
  deriving DecidableEq, Repr

instance {ε α : Type} [DecidableEq ε] [DecidableEq α] : DecidableEq (Except ε α) :=
  fun a b =>
  match a, b with
  | Except.ok x, Except.ok y =>
    if h : x = y then isTrue (by rw [h]) else isFalse (by intro hh; cases hh; exact h rfl)
  | Except.error x, Except.error y =>
    if h : x = y then isTrue (by rw [h]) else isFalse (by intro hh; cases hh; exact h rfl)
  | Except.ok _, Except.error _ => isFalse (by intro hh; cases hh)
  | Except.error _, Except.ok _ => isFalse (by intro hh; cases hh)

/-- One poll of `time::timeout(NEWBLOCK_TIMEOUT, subscription.next())`:
either the deadline fired, or the stream yielded `none` (closed), an error
item, or an event. -/
inductive LoopStep where
  | deadline
  | item (i : Option (Except String EventData))
  deriving DecidableEq, Repr

/-- How a run of the collector loop on a finite list of polls ended:
with an outcome, with an error (the `?` operator), or still looping when
the polls ran out. -/
inductive CollectEnd where
  | outcome (s : Store) (o : Outcome)
  | failed (s : Store) (e : String)
  | pending (s : Store) (count : Nat)
  deriving DecidableEq, Repr

/-- The subscription loop of `collect`: on deadline expiry count a timeout
and return `Outcome::Timeout`; otherwise bump `count` and destructure the
item — anything but a successfully processed new block falls through the
`let .. else continue` chain, skipping the block-count check at the bottom
of the loop; after a processed block, `count >= DISCONNECT_AFTER_BLOCKS`
returns `Outcome::BlockElapsed(count)`. -/
def collectLoop (supports_events : Bool) (chain : String) (now : Nat) :
    Store → Nat → List LoopStep → CollectEnd
  | s, count, [] => CollectEnd.pending s count
  | s, _, LoopStep.deadline :: _ =>
    CollectEnd.outcome (emit s (MetricEvent.chainpulseTimeouts chain))
      (Outcome.Timeout NEWBLOCK_TIMEOUT)
  | s, count, LoopStep.item i :: rest =>
    let count := count + 1
    match i with
    | some (Except.ok (EventData.newBlock (some b))) =>
      (match processBlock supports_events s chain b now with
       | Except.error (s', e) => CollectEnd.failed s' e
       | Except.ok s' =>
         if count ≥ DISCONNECT_AFTER_BLOCKS then
           CollectEnd.outcome s' (Outcome.BlockElapsed count)
         else collectLoop supports_events chain now s' count rest)
    | _ => collectLoop supports_events chain now s count rest

/-! ## `status.rs`: the stuck-packet sweep -/

/-- One gauge update emitted by `check_stuck_packets`, with its label
values as passed at the call sites in `status.rs`. -/
inductive StuckEmission where
  | detailed (src_chain dst_chain src_channel dst_channel : String)
      (has_user_data : Bool) (value : Int)
  | ageUnrelayed (src_chain dst_chain channel : String) (age_seconds : Int)
  | legacy (src_chain dst_chain src_channel : String) (value : Int)
  deriving DecidableEq, Repr

/-- A qualifying row of the stuck-packet query after the join:
the chain of the joined transaction plus the packet row. -/
structure StuckRow where
  src_chain : String
  dst_channel : String
  src_channel : String
  sender : Option String
  age : Int
  deriving DecidableEq, Repr

/-- The join and filter of the stuck-packet query: packets joined to their
transaction, keeping uneffected rows strictly older than the threshold. -/
def stuckQueryRows (s : Store) (now : Nat) (threshold : Int) : List StuckRow :=
  s.packets.filterMap (fun p =>
    match s.txs.find? (fun t => t.id == p.tx_id) with
    | none => none
    | some t =>
      let age : Int := (now : Int) - (p.created_at : Int)
      if p.effected = false ∧ age > threshold then
        some ⟨t.chain, p.dst_channel, p.src_channel, p.sender, age⟩
      else none)

/-- The grouping key of the stuck-packet query. -/
def stuckKey (r : StuckRow) : String × String × String :=
  (r.src_chain, r.dst_channel, r.src_channel)

/-- `GROUP BY t.chain, p.dst_channel, p.src_channel`, keeping each group's
rows; groups appear in order of first appearance (`fuel` bounds the
recursion so proofs can evaluate it). -/
def groupRowsAux : Nat → List StuckRow → List (StuckRow × List StuckRow)
  | 0, _ => []
  | _ + 1, [] => []
  | fuel + 1, r :: rest =>
    (r, rest.filter (fun x => stuckKey x = stuckKey r)) ::
      groupRowsAux fuel (rest.filter (fun x => stuckKey x ≠ stuckKey r))

/-- Group the qualifying rows by their key. -/
def groupRows (l : List StuckRow) : List (StuckRow × List StuckRow) :=
  groupRowsAux l.length l

/-- `check_stuck_packets` (threshold 900 s): for each group emit the
detailed gauge, the age gauge when positive, and the legacy gauge, with the
aggregates the SQL computes — note the query's `max_age` alias is bound to
`MIN(..)` of the ages. -/
def check_stuck_packets (s : Store) (now : Nat) : List StuckEmission :=
  let stuck_threshold_secs : Int := 900
  (groupRows (stuckQueryRows s now stuck_threshold_secs)).foldr
    (fun g acc =>
      let rows := g.1 :: g.2
      let stuck_count : Int := (rows.length : Int)
      let with_user_data : Int := ((rows.filter (fun r => r.sender.isSome)).length : Int)
      let max_age : Int := g.2.foldl (fun a r => min a r.age) g.1.age
      StuckEmission.detailed g.1.src_chain g.1.dst_channel g.1.src_channel g.1.dst_channel
          (with_user_data > 0) stuck_count ::
        ((if max_age > 0 then
            [StuckEmission.ageUnrelayed g.1.src_chain g.1.dst_channel g.1.src_channel max_age]
          else []) ++
         (StuckEmission.legacy g.1.src_chain g.1.dst_channel g.1.src_channel stuck_count ::
          acc)))
    []

/-! ## `client/factory.rs`: client selection -/

/-- Authentication configuration. -/
structure AuthConfig where
  username : String
  password : String
  deriving DecidableEq, Repr

/-- Which client implementation `create_client` picks. -/
inductive ClientKind where
  | authClient
  | v034Client (version : String)
  | v038Client
  deriving DecidableEq, Repr

/-- `create_client`: with credentials use the auth client regardless of
version; otherwise dispatch on the version tag, rejecting unknown ones. -/
def create_client (version : String) (auth : Option AuthConfig) :
    Except String ClientKind :=
  match auth with
  | some _ => Except.ok ClientKind.authClient
  | none =>
    if version = "0.34" ∨ version = "0.37" then
      Except.ok (ClientKind.v034Client version)
    else if version = "0.38" then
      Except.ok ClientKind.v038Client
    else
      Except.error ("Unsupported CometBFT version: " ++ version)

/-! ## The core write operations as a state machine

The claims about store invariants quantify over sequences of the core write
operations; `WriteOp` packages them with arbitrary arguments, applied from
the empty store. -/

/-- The three packet-carrying message kinds the correlation step is reached
with (`process_msg` runs only for relevant messages, and only these carry a
packet). -/
inductive PacketMsgKind where
  | recv
  | ack
  | timeoutKind
  deriving DecidableEq, Repr

/-- The type URL `Msg::decode` recognizes for each packet-carrying kind. -/
def PacketMsgKind.url : PacketMsgKind → String
  | PacketMsgKind.recv => "/ibc.core.channel.v1.MsgRecvPacket"
  | PacketMsgKind.ack => "/ibc.core.channel.v1.MsgAcknowledgement"
  | PacketMsgKind.timeoutKind => "/ibc.core.channel.v1.MsgTimeout"

/-- The decoded message of each packet-carrying kind. -/
def PacketMsgKind.toMsg : PacketMsgKind → Packet → String → Msg
  | PacketMsgKind.recv, p, signer => Msg.RecvPacket ⟨some p, signer⟩
  | PacketMsgKind.ack, p, signer => Msg.Acknowledgement ⟨some p, signer⟩
  | PacketMsgKind.timeoutKind, p, signer => Msg.Timeout ⟨some p, signer⟩

/-- A core write operation. -/
inductive WriteOp where
  | insertTransaction (chain : String) (height : Nat) (tx : TxContent) (now : Nat)
  | correlate (chain : String) (tx_row : TxRow) (kind : PacketMsgKind)
      (packet : Packet) (signer : String) (now : Nat)
  | sendEvent (chain : String) (tx_row : TxRow) (event : TxEvent) (now : Nat)
  | ackEvent (tx_row : TxRow) (event : TxEvent)
  | timeoutEvent (tx_row : TxRow) (event : TxEvent)

/-- Apply one write operation; a failing correlation keeps its partial
store. -/
def WriteOp.apply (s : Store) : WriteOp → Store
  | WriteOp.insertTransaction chain height tx now => (insert_tx s chain height tx now).1
  | WriteOp.correlate chain tx_row kind packet signer now =>
    (match process_msg s chain tx_row kind.url (kind.toMsg packet signer) now with
     | Except.ok s' => s'
     | Except.error (s', _) => s')
  | WriteOp.sendEvent chain tx_row event now =>
    process_send_packet_event s chain tx_row event now
  | WriteOp.ackEvent tx_row event => process_acknowledge_packet_event s tx_row event
  | WriteOp.timeoutEvent tx_row event => process_timeout_packet_event s tx_row event

/-- The store after a sequence of write operations on a fresh database. -/
def applyOps (ops : List WriteOp) : Store := ops.foldl WriteOp.apply Store.empty

/-! ## Observers used to state the claims -/

/-- The six-part key the correlation probe matches on. -/
structure PacketKey where
  src_channel : String
  src_port : String
  dst_channel : String
  dst_port : String
  sequence : Int
  msg_type_url : String
  deriving DecidableEq, Repr

/-- The key of a stored packet row. -/
def packetKey (r : PacketRow) : PacketKey :=
  ⟨r.src_channel, r.src_port, r.dst_channel, r.dst_port, r.sequence, r.msg_type_url⟩

/-- The rows of a store carrying a given key, in rowid order. -/
def keyRows (s : Store) (k : PacketKey) : List PacketRow :=
  s.packets.filter (fun r => packetKey r = k)

/-- How many rows with a given key are marked effected. -/
def countEffected (s : Store) (k : PacketKey) : Nat :=
  (s.packets.filter (fun r => packetKey r = k ∧ r.effected = true)).length

/-- The type URLs of the message-derived (correlation-step) packet rows. -/
def msgUrls : List String :=
  ["/ibc.core.channel.v1.MsgRecvPacket",
   "/ibc.core.channel.v1.MsgAcknowledgement",
   "/ibc.core.channel.v1.MsgTimeout"]

/-- The per-key winner invariant: the first row with the key is the effected
one, and every later row is uneffected and points back at it. -/
def MsgKeyInvariant (s : Store) (k : PacketKey) : Prop :=
  match keyRows s k with
  | [] => True
  | w :: rest =>
    w.effected = true ∧
      ∀ r ∈ rest, r.effected = false ∧
        r.effected_signer = some w.signer ∧ r.effected_tx = some w.tx_id

/-- How many `chainpulse_packets` increments a store's metric log holds for
a chain. -/
def countPacketsMetric (chain : String) (s : Store) : Nat :=
  (s.metrics.filter (fun e => e = MetricEvent.chainpulsePackets chain)).length

/-- Does a decoded message make the correlation step insert a row?
(IBC, relevant, not a transfer, and carrying a packet.) -/
def msgInserts (a : AnyMsg) : Bool :=
  match Msg.decode a with
  | Except.error _ => false
  | Except.ok m => m.is_ibc && m.is_relevant && m.transfer.isNone && m.packet.isSome

/-- How many packet rows the message loop of one raw transaction inserts. -/
def txInsertCount : Option TxContent → Nat
  | some ⟨_, some body⟩ => (body.messages.filter msgInserts).length
  | _ => 0

/-- How many packet rows the event loop of one transaction result inserts
(one per `send_packet` event). -/
def sendEventCount (events : List TxEvent) : Nat :=
  (events.filter (fun e => e.type_str == "send_packet")).length

/-- How many packet rows the block-results loop inserts. -/
def resultsInsertCount (blockData : List (Option TxContent)) :
    List (Nat × TxResult) → Nat
  | [] => 0
  | (tx_idx, tx_result) :: rest =>
    (match blockData.get? tx_idx with
     | some (some _) => sendEventCount tx_result.events
     | _ => 0) + resultsInsertCount blockData rest

/-- How many packet rows one (successful) ingest of a block appends. -/
def blockInsertCount (supports_events : Bool) (b : Block) : Nat :=
  (b.data.map txInsertCount).sum +
    (if supports_events then
      match b.results with
      | some block_results => resultsInsertCount b.data block_results.enum
      | none => 0
     else 0)

/-- The store of a database-operation result, error or not (the partial
state the `?` operator leaves behind). -/
def resStore : Except (Store × String) Store → Store
  | Except.ok s => s
  | Except.error (s, _) => s

/-- Is the row of a decoded transaction already in the `txs` table? -/
def findTx (chain : String) (t : TxContent) (s : Store) : Prop :=
  (s.txs.find? (fun x => x.chain == chain && x.hash == hexUpper (sha256 t.bytes))).isSome

/-- Every raw transaction of a list that decodes already has its
`(chain, hash)` row in the `txs` table. -/
def txsPresent (chain : String) (txs : List (Option TxContent)) (s : Store) : Prop :=
  ∀ tx ∈ txs, ∀ t : TxContent, tx = some t → findTx chain t s

/-- Every raw transaction of the block that decodes already has its
`(chain, hash)` row in the `txs` table. -/
def blockTxsPresent (chain : String) (b : Block) (s : Store) : Prop :=
  txsPresent chain b.data s

/-- The number of `txs` rows a loop run ended with. -/
def endTxsLen : CollectEnd → Nat
  | CollectEnd.outcome s _ => s.txs.length
  | CollectEnd.failed s _ => s.txs.length
  | CollectEnd.pending s _ => s.txs.length

/-- Did the loop run end still waiting for more stream items? -/
def endIsPending : CollectEnd → Bool
  | CollectEnd.pending _ _ => true
  | _ => false

/-- `create_client` as the specification words it: credentials force the
auth client, else `0.34`/`0.37` pick the classic client, `0.38` the modern
one, and anything else is a configuration error.  (Spec-side definition,
for comparison with the one from the source.) -/
def create_client_spec (version : String) (auth : Option AuthConfig) :
    Except String ClientKind :=
  if auth.isSome then Except.ok ClientKind.authClient
  else if version = "0.34" ∨ version = "0.37" then Except.ok (ClientKind.v034Client version)
  else if version = "0.38" then Except.ok ClientKind.v038Client
  else Except.error "configuration error"

/-! ## Concrete inputs for counterexamples and witnesses -/

/-- Bytes of an ASCII string. -/
def strBytes (s : String) : List Nat := s.data.map Char.toNat

/-- A concrete packet for `MsgRecvPacket` scenarios (non-`transfer` port,
empty payload). -/
def pktA : Packet :=
  { sequence := 7, source_port := "ica", source_channel := "channel-0",
    destination_port := "ica", destination_channel := "channel-141",
    data := [], timeout_height := none, timeout_timestamp := 0 }

/-- A concrete `MsgRecvPacket` as an `Any`. -/
def recvAnyA : AnyMsg :=
  { type_url := "/ibc.core.channel.v1.MsgRecvPacket",
    value := ProtoVal.recvPacket { packet := some pktA, signer := "relayer1" } }

/-- A concrete transaction carrying one `MsgRecvPacket`. -/
def txA : TxContent := { bytes := [1], body := some { memo := "m1", messages := [recvAnyA] } }

/-- A concrete block carrying `txA`, with no block results. -/
def blockA : Block := { height := 100, data := [some txA], results := none }

/-- The stream step delivering `blockA`. -/
def blockStepA : LoopStep :=
  LoopStep.item (some (Except.ok (EventData.newBlock (some blockA))))

/-- The store after one ingest of `blockA` into a fresh store. -/
def storeA1 : Store :=
  match processBlock false Store.empty "a-1" blockA 0 with
  | Except.ok s => s
  | Except.error (s, _) => s

/-- A concrete transaction row (for event-handler inputs). -/
def txRowA : TxRow :=
  { id := 1, chain := "a-1", height := 100, hash := "AA", memo := "", created_at := 0 }

/-- A concrete `send_packet` event with a one-byte `packet_data` of `00`. -/
def sendEventA : TxEvent :=
  { type_str := "send_packet",
    attributes := [("packet_sequence", "9"), ("packet_src_channel", "channel-0"),
                   ("packet_src_port", "ica"), ("packet_dst_channel", "channel-1"),
                   ("packet_dst_port", "ica"), ("packet_data", "00")] }

/-- A concrete `acknowledge_packet` event matching `sendEventA`. -/
def ackEventA : TxEvent :=
  { type_str := "acknowledge_packet",
    attributes := [("packet_sequence", "9"), ("packet_src_channel", "channel-0"),
                   ("packet_dst_channel", "channel-1")] }

/-- The key of the rows `sendEventA` inserts. -/
def sendKeyA : PacketKey := ⟨"channel-0", "ica", "channel-1", "ica", 9, "send_packet"⟩

/-- The operation sequence refuting the global effected-uniqueness claim:
the same `send_packet` event ingested twice, then its acknowledgement. -/
def dupSendOps : List WriteOp :=
  [WriteOp.sendEvent "a-1" txRowA sendEventA 0,
   WriteOp.sendEvent "a-1" txRowA sendEventA 0,
   WriteOp.ackEvent txRowA ackEventA]

/-- A concrete `MsgTransfer`. -/
def msgTransferA : MsgTransfer :=
  { source_port := "transfer", source_channel := "channel-0",
    sender := "osmo1sender", receiver := "cosmos1receiver" }

/-- The concrete `MsgTransfer` as an `Any`. -/
def transferAnyA : AnyMsg :=
  { type_url := "/ibc.applications.transfer.v1.MsgTransfer",
    value := ProtoVal.transfer msgTransferA }

/-- A concrete `MsgTransfer` transaction. -/
def transferTxA : TxContent :=
  { bytes := [2], body := some { memo := "", messages := [transferAnyA] } }

/-- An uneffected stuck packet row, parameterized by insertion time and
sender. -/
def stuckRowAt (created_at : Nat) (sender : Option String) : PacketRow :=
  { id := 1, tx_id := 1, sequence := 1, src_channel := "channel-0", src_port := "transfer",
    dst_channel := "channel-141", dst_port := "transfer", msg_type_url := "send_packet",
    signer := "", effected := false, effected_signer := none, effected_tx := none,
    sender := sender, receiver := none, denom := none, amount := none,
    ibc_version := some "v1", timeout_timestamp := none,
    timeout_height_revision_number := none, timeout_height_revision_height := none,
    data_hash := none, created_at := created_at }

/-- A store holding two uneffected rows of the same group, aged 2000 s and
1000 s at sweep time 2000. -/
def stuckStoreA : Store :=
  { txs := [txRowA], packets := [stuckRowAt 0 (some "x"), stuckRowAt 1000 none],
    next_tx_id := 2, next_packet_id := 3, metrics := [] }

/-- The store after ingesting `blockA` a second time into `storeA1`. -/
def storeA2 : Store := resStore (processBlock false storeA1 "a-1" blockA 0)

/-- The store after processing the concrete transfer transaction. -/
def c4EndStore : Store := resStore (processTx Store.empty "osmo-1" 100 0 (some transferTxA))

/-- The store after ingesting the concrete `send_packet` event. -/
def c5Store : Store := process_send_packet_event Store.empty "a-1" txRowA sendEventA 0

/-- The key of the rows the concrete `MsgRecvPacket` correlation inserts. -/
def recvKeyA : PacketKey :=
  ⟨"channel-0", "ica", "channel-141", "ica", 7, "/ibc.core.channel.v1.MsgRecvPacket"⟩

/-- A transaction insert followed by two correlations of the same
`MsgRecvPacket` by different signers. -/
def corrOpsA : List WriteOp :=
  [WriteOp.insertTransaction "a-1" 100 txA 0,
   WriteOp.correlate "a-1" txRowA PacketMsgKind.recv pktA "r1" 0,
   WriteOp.correlate "a-1" txRowA PacketMsgKind.recv pktA "r2" 0]

/-- An `Any` with a recognized URL whose payload does not decode. -/
def badAnyA : AnyMsg :=
  { type_url := "/ibc.core.channel.v1.MsgRecvPacket", value := ProtoVal.garbage }

/-- A fungible-token-transfer payload with no `memo` key. -/
def c10Payload : List Nat :=
  strBytes "\x7b\"denom\":\"uatom\",\"amount\":\"5\",\"sender\":\"a\",\"receiver\":\"b\"\x7d"

/-- The members of the parsed `c10Payload` object. -/
def c10Members : List (String × Json) :=
  [("denom", Json.str "uatom"), ("amount", Json.str "5"),
   ("sender", Json.str "a"), ("receiver", Json.str "b")]

/-- A `transfer`-port packet carrying `c10Payload`. -/
def c10Packet : Packet :=
  { sequence := 3, source_port := "transfer", source_channel := "channel-0",
    destination_port := "transfer", destination_channel := "channel-141",
    data := c10Payload, timeout_height := none, timeout_timestamp := 0 }

/-! # Theorems -/

/-! ## Helper lemmas -/

theorem emit_txs (s : Store) (e : MetricEvent) : (emit s e).txs = s.txs := rfl

theorem emit_packets (s : Store) (e : MetricEvent) : (emit s e).packets = s.packets := rfl

theorem insertPacketRow_txs (s : Store) (r : PacketRow) :
    (insertPacketRow s r).txs = s.txs := rfl

theorem insertPacketRow_packets (s : Store) (r : PacketRow) :
    (insertPacketRow s r).packets = s.packets ++ [r] := rfl

theorem insertTxRow_fst_packets (s : Store) (c : String) (h : Int) (ha m : String)
    (n : Nat) : (insertTxRow s c h ha m n).1.packets = s.packets := by
  unfold insertTxRow; split <;> rfl

theorem insertTxRow_fst_metrics (s : Store) (c : String) (h : Int) (ha m : String)
    (n : Nat) : (insertTxRow s c h ha m n).1.metrics = s.metrics := by
  unfold insertTxRow; split <;> rfl

theorem insert_tx_fst_packets (s : Store) (c : String) (h : Nat) (tx : TxContent)
    (n : Nat) : (insert_tx s c h tx n).1.packets = s.packets := by
  unfold insert_tx; exact insertTxRow_fst_packets ..

theorem insert_tx_fst_metrics (s : Store) (c : String) (h : Nat) (tx : TxContent)
    (n : Nat) : (insert_tx s c h tx n).1.metrics = s.metrics := by
  unfold insert_tx; exact insertTxRow_fst_metrics ..

/-! ## C9 — the client factory is a pure selection -/

/-- C9: `create_client` makes exactly the selection the specification
describes: credentials force the auth client regardless of version;
otherwise `0.34`/`0.37` pick the classic client and `0.38` the modern one,
and any other version is a configuration error (both sides erring
together). -/
theorem create_client_matches_spec (version : String) (auth : Option AuthConfig) :
    (create_client version auth).toOption = (create_client_spec version auth).toOption := by
  cases auth with
  | some a => rfl
  | none =>
    unfold create_client create_client_spec
    simp only [Option.isSome_none, Bool.false_eq_true, if_false]
    split
    · rfl
    · split <;> rfl

/-! ## C3 — what happens when the subscription stream closes -/

/-- C3 counterexample: a closed stream yields `none` items; after 150 of
them the collector loop has returned no outcome at all (it is still looping,
with an untouched store), instead of returning a `Disconnect` outcome —
`Outcome` has no such constructor, and the `let .. else continue` path skips
the block-count check. -/
theorem closed_stream_counterexample :
    collectLoop false "a-1" 0 Store.empty 0 (List.replicate 150 (LoopStep.item none)) =
      CollectEnd.pending Store.empty 150 := by
  rfl

/-- C3 amended: a closed-stream yield (`none` item) is counted and skipped
like any non-block item: the collector loop continues with the remaining
input; it never returns a dedicated disconnect outcome. -/
theorem closed_stream_item_continues (supports_events : Bool) (chain : String)
    (now : Nat) (s : Store) (count : Nat) (rest : List LoopStep) :
    collectLoop supports_events chain now s count (LoopStep.item none :: rest) =
      collectLoop supports_events chain now s (count + 1) rest := by
  rfl

/-! ## C7 — an error value on the block stream is not fatal -/

/-- C7 counterexample: after an error item on the stream the collector loop
keeps consuming: the block delivered next is fully processed (one `txs` row
appears) and the loop is still pending, instead of the iteration ending at
the error. -/
theorem stream_error_counterexample :
    collectLoop false "a-1" 0 Store.empty 0
        [LoopStep.item (some (Except.error "rpc error")), blockStepA] =
      CollectEnd.pending storeA1 2 ∧ storeA1.txs.length = 1 := by
  exact ⟨rfl, rfl⟩

/-- C7 amended: an error item on the stream is counted and skipped — the
`let Some(Ok(event)) = .. else continue` chain treats it like a closed
stream's yield — and the collector loop continues with the remaining
input. -/
theorem stream_error_item_continues (supports_events : Bool) (chain : String)
    (now : Nat) (s : Store) (count : Nat) (e : String) (rest : List LoopStep) :
    collectLoop supports_events chain now s count
        (LoopStep.item (some (Except.error e)) :: rest) =
      collectLoop supports_events chain now s (count + 1) rest := by
  rfl

/-! ## C5 — what `data_hash` holds on each ingest path -/

/-- C5 counterexample: the event-derived `send_packet` path stores the raw
`packet_data` attribute (here `"00"`, the hex of the one-byte payload
`0x00`) as `data_hash`, not the lowercase hex SHA-256 of the payload
bytes. -/
theorem send_event_data_hash_counterexample :
    c5Store.packets.map (fun r => r.data_hash) = [some "00"] ∧
    hexDecode "00" = some [0] ∧
    hexLower (sha256 [0]) =
      "6e340b9cffb37a989ca544e6bb780a2c78901d3fb33738768511a30617afa01d" ∧
    ("00" : String) ≠ "6e340b9cffb37a989ca544e6bb780a2c78901d3fb33738768511a30617afa01d" := by
  refine ⟨rfl, rfl, rfl, ?_⟩
  decide

/-- C5 amended: rows built through `UniversalPacketInfo::from_packet` (the
correlation step binds its `data_hash`) carry the lowercase hex SHA-256 of
the raw payload bytes, while rows inserted by the `send_packet` event
handler carry the raw `packet_data` attribute string unhashed. -/
theorem data_hash_by_path :
    (∀ p : Packet,
      (UniversalPacketInfo.from_packet p).data_hash = hexLower (sha256 p.data)) ∧
    (∀ (s : Store) (chain : String) (tx_row : TxRow) (event : TxEvent) (now : Nat),
      ∃ row : PacketRow,
        (process_send_packet_event s chain tx_row event now).packets =
          s.packets ++ [row] ∧
        row.data_hash = some ((attrLookup event.attributes "packet_data").getD "") ∧
        row.msg_type_url = "send_packet") := by
  refine ⟨fun p => rfl, fun s chain tx_row event now => ⟨_, rfl, rfl, rfl⟩⟩

/-! ## C6 — the stuck-packet age gauge -/

/-- C6: evaluating `check_stuck_packets` on a group whose qualifying rows
are aged 2000 s and 1000 s: the emitted `ibc_packet_age_seconds`
(`ibc_packet_age_unrelayed`) value is 1000 — the `MIN(..) AS max_age` of the
query — although the oldest qualifying age in the group is 2000. -/
theorem stuck_sweep_emits_min_age :
    check_stuck_packets stuckStoreA 2000 =
      [StuckEmission.detailed "a-1" "channel-141" "channel-0" "channel-141" true 2,
       StuckEmission.ageUnrelayed "a-1" "channel-141" "channel-0" 1000,
       StuckEmission.legacy "a-1" "channel-141" "channel-0" 2] ∧
    (stuckQueryRows stuckStoreA 2000 900).map (fun r => r.age) = [2000, 1000] ∧
    (1000 : Int) ≠ 2000 := by
  refine ⟨rfl, rfl, ?_⟩
  decide

/-! ## C4 — a transaction with one `MsgTransfer` -/

/-- C4 counterexample: processing a transaction whose only message is a
`MsgTransfer` inserts no packet row but increments `chainpulse_packets`
twice (once in `process_msg` before delegating and once inside
`process_transfer`), not once. -/
theorem transfer_double_count_counterexample :
    processTx Store.empty "osmo-1" 100 0 (some transferTxA) = Except.ok c4EndStore ∧
    countPacketsMetric "osmo-1" Store.empty = 0 ∧
    countPacketsMetric "osmo-1" c4EndStore = 2 ∧
    c4EndStore.packets.length = 0 ∧
    (2 : Nat) ≠ 1 := by
  refine ⟨rfl, rfl, rfl, rfl, ?_⟩
  decide

/-- C4 amended: processing a transaction whose messages are exactly one
`MsgTransfer` leaves the packets table unchanged and appends exactly one
`chainpulse_txs` and two `chainpulse_packets` increments for the chain, for
every store, chain, height and transfer. -/
theorem transfer_tx_counts_twice_no_row (s : Store) (chain : String)
    (height now : Nat) (bytes : List Nat) (memo : String) (t : MsgTransfer) :
    ∃ s', processTx s chain height now (some ⟨bytes, some ⟨memo,
          [⟨"/ibc.applications.transfer.v1.MsgTransfer", ProtoVal.transfer t⟩]⟩⟩) =
        Except.ok s' ∧
      s'.packets = s.packets ∧
      s'.metrics = s.metrics ++ [MetricEvent.chainpulseTxs chain,
        MetricEvent.chainpulsePackets chain, MetricEvent.chainpulsePackets chain] := by
  simp only [processTx]
  rcases hins : insert_tx (emit s (MetricEvent.chainpulseTxs chain)) chain height
      ⟨bytes, some ⟨memo,
        [⟨"/ibc.applications.transfer.v1.MsgTransfer", ProtoVal.transfer t⟩]⟩⟩ now
    with ⟨s₁, txr⟩
  have hp : s₁.packets = s.packets := by
    have := insert_tx_fst_packets (emit s (MetricEvent.chainpulseTxs chain)) chain height
      ⟨bytes, some ⟨memo,
        [⟨"/ibc.applications.transfer.v1.MsgTransfer", ProtoVal.transfer t⟩]⟩⟩ now
    rw [hins] at this
    exact this
  have hm : s₁.metrics = s.metrics ++ [MetricEvent.chainpulseTxs chain] := by
    have := insert_tx_fst_metrics (emit s (MetricEvent.chainpulseTxs chain)) chain height
      ⟨bytes, some ⟨memo,
        [⟨"/ibc.applications.transfer.v1.MsgTransfer", ProtoVal.transfer t⟩]⟩⟩ now
    rw [hins] at this
    exact this
  refine ⟨_, rfl, ?_, ?_⟩
  · simp [processMsgs, Msg.decode, Msg.is_ibc, Msg.is_relevant, process_msg, Msg.transfer,
      process_transfer, emit, insertPacketRow, hp]
  · simp [processMsgs, Msg.decode, Msg.is_ibc, Msg.is_relevant, process_msg, Msg.transfer,
      process_transfer, emit, insertPacketRow, hm]

/-! ## C8 — a message decode failure is warned and skipped -/

/-- C8: if message `i` of a transaction fails to decode, the message loop
produces exactly the result it would produce if message `i` were absent —
the messages before and after it are processed identically, and neither the
transaction nor the block is aborted by the failure. -/
theorem decode_failure_skips_message (s : Store) (chain : String) (tx_row : TxRow)
    (now : Nat) (pre post : List AnyMsg) (a : AnyMsg) (e : String)
    (h : Msg.decode a = Except.error e) :
    processMsgs s chain tx_row now (pre ++ a :: post) =
      processMsgs s chain tx_row now (pre ++ post) := by
  induction pre generalizing s with
  | nil =>
    simp only [List.nil_append, processMsgs, h]
  | cons x pre ih =>
    simp only [List.cons_append, processMsgs]
    cases hdx : Msg.decode x with
    | error e' => exact ih s
    | ok m =>
      by_cases hrel : m.is_ibc = true ∧ m.is_relevant = true
      · simp only [if_pos hrel]
        cases hpm : process_msg s chain tx_row x.type_url m now with
        | error es => rfl
        | ok s' => exact ih s'
      · simp only [if_neg hrel]
        exact ih s

/-- C8 witness: a concrete `Any` with a recognized URL and an undecodable
payload, between a transfer and a recv message: skipping it yields exactly
the run without it. -/
theorem decode_failure_skips_message_witness :
    Msg.decode badAnyA = Except.error "decode error" ∧
    processMsgs Store.empty "a-1" txRowA 0 [transferAnyA, badAnyA, recvAnyA] =
      processMsgs Store.empty "a-1" txRowA 0 [transferAnyA, recvAnyA] := by
  exact ⟨rfl, decode_failure_skips_message Store.empty "a-1" txRowA 0
    [transferAnyA] [recvAnyA] badAnyA "decode error" rfl⟩

/-! ## C10 — the `memo` field defaults to the empty string -/

/-- The member fold of the `FungibleTokenPacketData` deserializer, computed
exactly: when each required key occurs exactly once with a string value (or
is already recorded), unknown keys are ignored, and no `memo` member occurs,
the fold succeeds with `memo` still unset. -/
theorem ftpd_fold_exact (members : List (String × Json)) :
    ∀ (f : FtpdFields) (sd sa ss sr : String),
    ((members.filter (fun kv => kv.1 = "denom") = [("denom", Json.str sd)] ∧
        f.denom = none) ∨
      (members.filter (fun kv => kv.1 = "denom") = [] ∧ f.denom = some sd)) →
    ((members.filter (fun kv => kv.1 = "amount") = [("amount", Json.str sa)] ∧
        f.amount = none) ∨
      (members.filter (fun kv => kv.1 = "amount") = [] ∧ f.amount = some sa)) →
    ((members.filter (fun kv => kv.1 = "sender") = [("sender", Json.str ss)] ∧
        f.sender = none) ∨
      (members.filter (fun kv => kv.1 = "sender") = [] ∧ f.sender = some ss)) →
    ((members.filter (fun kv => kv.1 = "receiver") = [("receiver", Json.str sr)] ∧
        f.receiver = none) ∨
      (members.filter (fun kv => kv.1 = "receiver") = [] ∧ f.receiver = some sr)) →
    members.filter (fun kv => kv.1 = "memo") = [] →
    f.memo = none →
    members.foldlM ftpdStep f = some ⟨some sd, some sa, some ss, some sr, none⟩ := by
  induction members with
  | nil =>
    intro f sd sa ss sr hd ha hs hr _ hfm
    simp only [List.filter_nil] at hd ha hs hr
    rcases hd with ⟨h, _⟩ | ⟨_, hfd⟩
    · exact absurd h (by simp)
    rcases ha with ⟨h, _⟩ | ⟨_, hfa⟩
    · exact absurd h (by simp)
    rcases hs with ⟨h, _⟩ | ⟨_, hfs⟩
    · exact absurd h (by simp)
    rcases hr with ⟨h, _⟩ | ⟨_, hfr⟩
    · exact absurd h (by simp)
    obtain ⟨d, a, s', r, m⟩ := f
    simp only at hfd hfa hfs hfr hfm
    subst hfd hfa hfs hfr hfm
    rfl
  | cons kv rest ih =>
    intro f sd sa ss sr hd ha hs hr hm hfm
    obtain ⟨k, v⟩ := kv
    by_cases h1 : k = "denom"
    · subst h1
      simp only [List.filter_cons] at hd ha hs hr hm
      simp only [show (("denom":String) = "amount") = False from by simp,
        show (("denom":String) = "sender") = False from by simp,
        show (("denom":String) = "receiver") = False from by simp,
        show (("denom":String) = "memo") = False from by simp,
        decide_False, Bool.false_eq_true, if_false] at ha hs hr hm
      simp only [decide_True, if_true] at hd
      rcases hd with ⟨hcons, hfd⟩ | ⟨hcons, _⟩
      · injection hcons with hkv hrest
        injection hkv with _ hv
        subst hv
        rw [List.foldlM_cons]
        simp only [ftpdStep, if_pos rfl, setStrField, hfd, Option.map_some,
          Option.some_bind]
        exact ih _ sd sa ss sr (Or.inr ⟨hrest, rfl⟩) ha hs hr hm hfm
      · exact absurd hcons (by simp)
    by_cases h2 : k = "amount"
    · subst h2
      simp only [List.filter_cons] at hd ha hs hr hm
      simp only [show (("amount":String) = "denom") = False from by simp,
        show (("amount":String) = "sender") = False from by simp,
        show (("amount":String) = "receiver") = False from by simp,
        show (("amount":String) = "memo") = False from by simp,
        decide_False, Bool.false_eq_true, if_false] at hd hs hr hm
      simp only [decide_True, if_true] at ha
      rcases ha with ⟨hcons, hfa⟩ | ⟨hcons, _⟩
      · injection hcons with hkv hrest
        injection hkv with _ hv
        subst hv
        rw [List.foldlM_cons]
        simp only [ftpdStep, setStrField, hfa]
        simp only [show (("amount":String) = "denom") = False from by simp, if_false,
          if_pos rfl, Option.map_some, Option.some_bind]
        exact ih _ sd sa ss sr hd (Or.inr ⟨hrest, rfl⟩) hs hr hm hfm
      · exact absurd hcons (by simp)
    by_cases h3 : k = "sender"
    · subst h3
      simp only [List.filter_cons] at hd ha hs hr hm
      simp only [show (("sender":String) = "denom") = False from by simp,
        show (("sender":String) = "amount") = False from by simp,
        show (("sender":String) = "receiver") = False from by simp,
        show (("sender":String) = "memo") = False from by simp,
        decide_False, Bool.false_eq_true, if_false] at hd ha hr hm
      simp only [decide_True, if_true] at hs
      rcases hs with ⟨hcons, hfs⟩ | ⟨hcons, _⟩
      · injection hcons with hkv hrest
        injection hkv with _ hv
        subst hv
        rw [List.foldlM_cons]
        simp only [ftpdStep, setStrField, hfs]
        simp only [show (("sender":String) = "denom") = False from by simp,
          show (("sender":String) = "amount") = False from by simp, if_false,
          if_pos rfl, Option.map_some, Option.some_bind]
        exact ih _ sd sa ss sr hd ha (Or.inr ⟨hrest, rfl⟩) hr hm hfm
      · exact absurd hcons (by simp)
    by_cases h4 : k = "receiver"
    · subst h4
      simp only [List.filter_cons] at hd ha hs hr hm
      simp only [show (("receiver":String) = "denom") = False from by simp,
        show (("receiver":String) = "amount") = False from by simp,
        show (("receiver":String) = "sender") = False from by simp,
        show (("receiver":String) = "memo") = False from by simp,
        decide_False, Bool.false_eq_true, if_false] at hd ha hs hm
      simp only [decide_True, if_true] at hr
      rcases hr with ⟨hcons, hfr⟩ | ⟨hcons, _⟩
      · injection hcons with hkv hrest
        injection hkv with _ hv
        subst hv
        rw [List.foldlM_cons]
        simp only [ftpdStep, setStrField, hfr]
        simp only [show (("receiver":String) = "denom") = False from by simp,
          show (("receiver":String) = "amount") = False from by simp,
          show (("receiver":String) = "sender") = False from by simp, if_false,
          if_pos rfl, Option.map_some, Option.some_bind]
        exact ih _ sd sa ss sr hd ha hs (Or.inr ⟨hrest, rfl⟩) hm hfm
      · exact absurd hcons (by simp)
    by_cases h5 : k = "memo"
    · subst h5
      simp only [List.filter_cons, decide_True, if_true] at hm
      exact absurd hm (by simp)
    · have hstep : ftpdStep f (k, v) = some f := by
        simp [ftpdStep, h1, h2, h3, h4, h5]
      have e1 : (decide (k = "denom")) = false := by simp [h1]
      have e2 : (decide (k = "amount")) = false := by simp [h2]
      have e3 : (decide (k = "sender")) = false := by simp [h3]
      have e4 : (decide (k = "receiver")) = false := by simp [h4]
      have e5 : (decide (k = "memo")) = false := by simp [h5]
      simp only [List.filter_cons, e1, Bool.false_eq_true, if_false] at hd
      simp only [List.filter_cons, e2, Bool.false_eq_true, if_false] at ha
      simp only [List.filter_cons, e3, Bool.false_eq_true, if_false] at hs
      simp only [List.filter_cons, e4, Bool.false_eq_true, if_false] at hr
      simp only [List.filter_cons, e5, Bool.false_eq_true, if_false] at hm
      rw [List.foldlM_cons, hstep]
      exact ih f sd sa ss sr hd ha hs hr hm hfm

/-- C10: a `transfer`-port packet whose payload is valid JSON for the
fungible-token-transfer record (each required field exactly once, as a
string) but omits `"memo"` deserializes successfully with `memo` defaulted
to `""`, so the extracted `transfer_memo` is `some ""`; and all five user
fields are absent only when deserialization fails or the port is not
`transfer`. -/
theorem transfer_memo_default :
    (∀ (p : Packet) (members : List (String × Json)) (sd sa ss sr : String),
      p.source_port = "transfer" →
      parseJsonBytes p.data = some (Json.obj members) →
      members.filter (fun kv => kv.1 = "denom") = [("denom", Json.str sd)] →
      members.filter (fun kv => kv.1 = "amount") = [("amount", Json.str sa)] →
      members.filter (fun kv => kv.1 = "sender") = [("sender", Json.str ss)] →
      members.filter (fun kv => kv.1 = "receiver") = [("receiver", Json.str sr)] →
      members.filter (fun kv => kv.1 = "memo") = [] →
      FungibleTokenPacketData.fromSlice p.data = some ⟨sd, sa, ss, sr, ""⟩ ∧
      (UniversalPacketInfo.from_packet p).transfer_memo = some "") ∧
    (∀ q : Packet,
      (UniversalPacketInfo.from_packet q).sender = none →
      (UniversalPacketInfo.from_packet q).receiver = none →
      (UniversalPacketInfo.from_packet q).denom = none →
      (UniversalPacketInfo.from_packet q).amount = none →
      (UniversalPacketInfo.from_packet q).transfer_memo = none →
      FungibleTokenPacketData.fromSlice q.data = none ∨ q.source_port ≠ "transfer") := by
  constructor
  · intro p members sd sa ss sr hport hparse hd ha hs hr hm
    have hfold := ftpd_fold_exact members {} sd sa ss sr
      (Or.inl ⟨hd, rfl⟩) (Or.inl ⟨ha, rfl⟩) (Or.inl ⟨hs, rfl⟩) (Or.inl ⟨hr, rfl⟩) hm rfl
    have hfs : FungibleTokenPacketData.fromSlice p.data = some ⟨sd, sa, ss, sr, ""⟩ := by
      unfold FungibleTokenPacketData.fromSlice
      rw [hparse]
      simp only [Option.some_bind]
      unfold FungibleTokenPacketData.fromJson
      dsimp only
      rw [hfold]
      rfl
    refine ⟨hfs, ?_⟩
    unfold UniversalPacketInfo.from_packet
    rw [if_pos hport, hfs]
  · intro q hse hre hde hae hme
    by_cases hport : q.source_port = "transfer"
    · cases hfs : FungibleTokenPacketData.fromSlice q.data with
      | none => exact Or.inl rfl
      | some ft =>
        exfalso
        unfold UniversalPacketInfo.from_packet at hse
        rw [if_pos hport, hfs] at hse
        simp at hse
    · exact Or.inr hport

/-- C10 witness: the canonical payload without a `memo` key deserializes
with `memo = ""` and yields `transfer_memo = some ""`. -/
theorem transfer_memo_default_witness :
    parseJsonBytes c10Packet.data = some (Json.obj c10Members) ∧
    FungibleTokenPacketData.fromSlice c10Packet.data = some ⟨"uatom", "5", "a", "b", ""⟩ ∧
    (UniversalPacketInfo.from_packet c10Packet).transfer_memo = some "" := by
  refine ⟨rfl, ?_⟩
  exact transfer_memo_default.1 c10Packet c10Members "uatom" "5" "a" "b"
    rfl rfl rfl rfl rfl rfl rfl

/-! ## C2 — at most one effected row per key

Bridging lemmas between the probe (`find?` with `BEq` conditions) and the
key-row observer, preservation of the per-key winner invariant by each core
write operation, and the induction over operation sequences. -/

theorem find?_eq_head?_filter {α : Type} (p : α → Bool) (l : List α) :
    l.find? p = (l.filter p).head? := by
  induction l with
  | nil => rfl
  | cons a t ih =>
    by_cases h : p a = true
    · rw [List.find?_cons_of_pos _ h, List.filter_cons_of_pos h]
      rfl
    · rw [List.find?_cons_of_neg _ (by simpa using h), List.filter_cons_of_neg (by simpa using h)]
      exact ih

theorem keyRows_empty (k : PacketKey) : keyRows Store.empty k = [] := rfl

theorem probeExisting_eq_head (s : Store) (p : Packet) (url : String) :
    probeExisting s p url =
      (keyRows s ⟨p.source_channel, p.source_port, p.destination_channel,
        p.destination_port, asI64 p.sequence, url⟩).head? := by
  unfold probeExisting keyRows
  rw [find?_eq_head?_filter]
  congr 1
  apply List.filter_congr
  intro r _
  apply Bool.eq_iff_iff.mpr
  simp [Bool.and_eq_true, beq_iff_eq, decide_eq_true_eq, and_assoc, packetKey,
    PacketKey.mk.injEq]

theorem keyRows_emit (s : Store) (e : MetricEvent) (k : PacketKey) :
    keyRows (emit s e) k = keyRows s k := rfl

theorem keyRows_insertPacketRow (s : Store) (row : PacketRow) (k : PacketKey) :
    keyRows (insertPacketRow s row) k =
      keyRows s k ++ if packetKey row = k then [row] else [] := by
  unfold keyRows insertPacketRow
  simp only [List.filter_append]
  congr 1
  by_cases h : packetKey row = k
  · simp [h]
  · simp [h]

theorem msgKeyInvariant_of_keyRows_eq {s s' : Store} {k : PacketKey}
    (h : keyRows s' k = keyRows s k) (hinv : MsgKeyInvariant s k) :
    MsgKeyInvariant s' k := by
  unfold MsgKeyInvariant at *
  rw [h]
  exact hinv

theorem msgKeyInvariant_empty (k : PacketKey) : MsgKeyInvariant Store.empty k := by
  unfold MsgKeyInvariant
  rw [keyRows_empty]
  exact trivial

/-- Appending an uneffected row that points at the current winner preserves
the per-key invariant. -/
theorem msgKeyInvariant_append {s s' : Store} {k : PacketKey} (w : PacketRow)
    (rest : List PacketRow) (row : PacketRow)
    (hrows : keyRows s k = w :: rest)
    (hrows' : keyRows s' k = (w :: rest) ++ [row])
    (hinv : MsgKeyInvariant s k)
    (heff : row.effected = false)
    (hsig : row.effected_signer = some w.signer)
    (htx : row.effected_tx = some w.tx_id) :
    MsgKeyInvariant s' k := by
  unfold MsgKeyInvariant at *
  rw [hrows] at hinv
  rw [hrows']
  refine ⟨hinv.1, ?_⟩
  intro r hr
  rw [List.cons_append] at *
  rcases List.mem_append.mp hr with h | h
  · exact hinv.2 r h
  · rw [List.mem_singleton] at h
    subst h
    exact ⟨heff, hsig, htx⟩

/-- The correlation step preserves the per-key invariant, for every key:
it appends the first row of a key as effected, and any later row as
uneffected pointing at the probe's winner — the first row with that key. -/
theorem process_msg_preserves_inv (s : Store) (chain : String) (txr : TxRow)
    (url : String) (msg : Msg) (p : Packet) (now : Nat) (k : PacketKey)
    (ht : msg.transfer = none) (hp : msg.packet = some p)
    (hinv : MsgKeyInvariant s k) :
    MsgKeyInvariant (resStore (process_msg s chain txr url msg now)) k := by
  unfold process_msg
  rw [ht, hp]
  dsimp only
  rw [probeExisting_eq_head]
  simp only [keyRows_emit, emit_txs]
  cases hE : (keyRows s ⟨p.source_channel, p.source_port, p.destination_channel,
      p.destination_port, asI64 p.sequence, url⟩).head? with
  | none =>
    have hnil : keyRows s ⟨p.source_channel, p.source_port, p.destination_channel,
        p.destination_port, asI64 p.sequence, url⟩ = [] := List.head?_eq_none_iff.mp hE
    simp only [resStore]
    by_cases hkk : (⟨p.source_channel, p.source_port, p.destination_channel,
        p.destination_port, asI64 p.sequence, url⟩ : PacketKey) = k
    · unfold MsgKeyInvariant
      rw [keyRows_insertPacketRow]
      simp only [keyRows_emit]
      rw [← hkk, hnil]
      simp only [List.nil_append, packetKey, if_pos]
      exact ⟨rfl, by intro r hr; exact absurd hr (List.not_mem_nil r)⟩
    · refine msgKeyInvariant_of_keyRows_eq ?_ hinv
      rw [keyRows_insertPacketRow]
      simp [keyRows_emit, packetKey, hkk]
  | some ex =>
    dsimp only
    cases hf : s.txs.find? (fun t => t.id == ex.tx_id) with
    | none =>
      simp only [resStore]
      exact msgKeyInvariant_of_keyRows_eq rfl hinv
    | some etx =>
      simp only [resStore]
      obtain ⟨rest, hrows⟩ := List.head?_eq_some_iff.mp hE
      by_cases hkk : (⟨p.source_channel, p.source_port, p.destination_channel,
          p.destination_port, asI64 p.sequence, url⟩ : PacketKey) = k
      · apply msgKeyInvariant_append ex rest
        · rw [← hkk]; exact hrows
        · rw [keyRows_insertPacketRow]
          simp only [keyRows_emit]
          rw [← hkk, hrows]
          simp [packetKey]
          rfl
        · exact hinv
        · rfl
        · rfl
        · rfl
      · refine msgKeyInvariant_of_keyRows_eq ?_ hinv
        rw [keyRows_insertPacketRow]
        simp [keyRows_emit, packetKey, hkk]
theorem keyRows_congr {s s' : Store} (h : s'.packets = s.packets) (k : PacketKey) :
    keyRows s' k = keyRows s k := by
  unfold keyRows
  rw [h]

/-- The `send_packet` event insert does not touch the rows of any key whose
type URL is not `send_packet`. -/
theorem send_event_preserves_inv (s : Store) (chain : String) (txr : TxRow)
    (evt : TxEvent) (now : Nat) (k : PacketKey)
    (hk : k.msg_type_url ≠ "send_packet")
    (hinv : MsgKeyInvariant s k) :
    MsgKeyInvariant (process_send_packet_event s chain txr evt now) k := by
  obtain ⟨k1, k2, k3, k4, k5, k6⟩ := k
  simp only at hk
  refine msgKeyInvariant_of_keyRows_eq ?_ hinv
  unfold process_send_packet_event
  dsimp only
  rw [keyRows_insertPacketRow]
  simp only [keyRows_emit]
  simp [packetKey, PacketKey.mk.injEq, Ne.symm hk]

/-- The ack/timeout UPDATE only touches `send_packet` rows and only moves
them to `send_packet`/`timeout_packet`, so the rows of any other key are
untouched. -/
theorem filter_key_update (k : PacketKey) (hk1 : k.msg_type_url ≠ "send_packet")
    (hk2 : k.msg_type_url ≠ "timeout_packet") (g : PacketRow → PacketRow)
    (hg : ∀ r, r.msg_type_url = "send_packet" →
      (g r).msg_type_url = "send_packet" ∨ (g r).msg_type_url = "timeout_packet")
    (seq : Int) (c1 c2 : String) (l : List PacketRow) :
    (l.map (fun r =>
      if r.sequence == seq && r.src_channel == c1 && r.dst_channel == c2 &&
          r.msg_type_url == "send_packet" then g r else r)).filter
        (fun r => packetKey r = k) =
      l.filter (fun r => packetKey r = k) := by
  induction l with
  | nil => rfl
  | cons r t ih =>
    simp only [List.map_cons, List.filter_cons]
    by_cases hc : (r.sequence == seq && r.src_channel == c1 && r.dst_channel == c2 &&
        r.msg_type_url == "send_packet") = true
    · have hurl : r.msg_type_url = "send_packet" := by
        have hc' := hc
        simp only [Bool.and_eq_true, beq_iff_eq] at hc'
        exact hc'.2
      have hner : ¬ (packetKey r = k) := by
        intro h
        apply hk1
        rw [← h]
        exact hurl
      have hng : ¬ (packetKey (g r) = k) := by
        intro h
        rcases hg r hurl with h2 | h2
        · exact hk1 (by rw [← h]; exact h2)
        · exact hk2 (by rw [← h]; exact h2)
      rw [if_pos hc]
      rw [if_neg (by simpa using hng), if_neg (by simpa using hner)]
      exact ih
    · rw [if_neg hc]
      by_cases hkr : packetKey r = k
      · rw [if_pos (by simpa using hkr), if_pos (by simpa using hkr), ih]
      · rw [if_neg (by simpa using hkr), if_neg (by simpa using hkr)]
        exact ih

theorem ack_event_preserves_inv (s : Store) (txr : TxRow) (evt : TxEvent)
    (k : PacketKey) (hk1 : k.msg_type_url ≠ "send_packet")
    (hk2 : k.msg_type_url ≠ "timeout_packet")
    (hinv : MsgKeyInvariant s k) :
    MsgKeyInvariant (process_acknowledge_packet_event s txr evt) k := by
  refine msgKeyInvariant_of_keyRows_eq ?_ hinv
  unfold process_acknowledge_packet_event keyRows
  dsimp only
  exact filter_key_update k hk1 hk2
    (fun r => { r with effected := true, effected_tx := some txr.id })
    (fun r h => Or.inl h) _ _ _ s.packets

theorem timeout_event_preserves_inv (s : Store) (txr : TxRow) (evt : TxEvent)
    (k : PacketKey) (hk1 : k.msg_type_url ≠ "send_packet")
    (hk2 : k.msg_type_url ≠ "timeout_packet")
    (hinv : MsgKeyInvariant s k) :
    MsgKeyInvariant (process_timeout_packet_event s txr evt) k := by
  refine msgKeyInvariant_of_keyRows_eq ?_ hinv
  unfold process_timeout_packet_event keyRows
  dsimp only
  exact filter_key_update k hk1 hk2
    (fun r =>
      { r with effected := true, effected_tx := some txr.id, msg_type_url := "timeout_packet" })
    (fun r h => Or.inr rfl) _ _ _ s.packets

/-- Every core write operation preserves the per-key invariant for keys of
message-derived type URLs. -/
theorem writeOp_preserves_inv (s : Store) (op : WriteOp) (k : PacketKey)
    (hk : k.msg_type_url ∈ msgUrls)
    (hinv : MsgKeyInvariant s k) : MsgKeyInvariant (WriteOp.apply s op) k := by
  have hk' : k.msg_type_url = "/ibc.core.channel.v1.MsgRecvPacket" ∨
      k.msg_type_url = "/ibc.core.channel.v1.MsgAcknowledgement" ∨
      k.msg_type_url = "/ibc.core.channel.v1.MsgTimeout" := by
    simpa [msgUrls] using hk
  have hk1 : k.msg_type_url ≠ "send_packet" := by
    rcases hk' with h | h | h <;> rw [h] <;> decide
  have hk2 : k.msg_type_url ≠ "timeout_packet" := by
    rcases hk' with h | h | h <;> rw [h] <;> decide
  cases op with
  | insertTransaction chain height tx now =>
    exact msgKeyInvariant_of_keyRows_eq
      (keyRows_congr (insert_tx_fst_packets s chain height tx now) k) hinv
  | correlate chain txr kind p signer now =>
    cases kind with
    | recv => exact process_msg_preserves_inv s chain txr _ _ p now k rfl rfl hinv
    | ack => exact process_msg_preserves_inv s chain txr _ _ p now k rfl rfl hinv
    | timeoutKind => exact process_msg_preserves_inv s chain txr _ _ p now k rfl rfl hinv
  | sendEvent chain txr evt now =>
    exact send_event_preserves_inv s chain txr evt now k hk1 hinv
  | ackEvent txr evt => exact ack_event_preserves_inv s txr evt k hk1 hk2 hinv
  | timeoutEvent txr evt => exact timeout_event_preserves_inv s txr evt k hk1 hk2 hinv

/-- C2 amended: in every store state reachable by any sequence of the core
write operations, for each key whose type URL is one of the message-derived
URLs (the correlation step's keys), the first row bearing the key is the
only effected one and every later row for the key is uneffected with
`effected_signer`/`effected_tx` pointing at it.  (Event-derived
`send_packet` keys are exempt: duplicated send events flipped by an
ack/timeout break the bound, see the counterexample.) -/
theorem msg_key_invariant_holds (ops : List WriteOp) (k : PacketKey)
    (hk : k.msg_type_url ∈ msgUrls) : MsgKeyInvariant (applyOps ops) k := by
  suffices h : ∀ s, MsgKeyInvariant s k → MsgKeyInvariant (ops.foldl WriteOp.apply s) k by
    exact h Store.empty (msgKeyInvariant_empty k)
  induction ops with
  | nil => exact fun s hs => hs
  | cons op rest ih =>
    intro s hs
    simp only [List.foldl_cons]
    exact ih (WriteOp.apply s op) (writeOp_preserves_inv s op k hk hs)

/-- C2 counterexample: ingesting the same `send_packet` event twice and then
its acknowledgement yields two rows with the same six-part key, both with
`effected = true` — the claimed bound of at most one effected row per key
fails on the event-derived path. -/
theorem effected_uniqueness_counterexample :
    countEffected (applyOps dupSendOps) sendKeyA = 2 ∧
    ¬ countEffected (applyOps dupSendOps) sendKeyA ≤ 1 := by
  exact ⟨rfl, by decide⟩

/-- C2 witness: a concrete double correlation of the same `MsgRecvPacket`
satisfies the per-key invariant. -/
theorem msg_key_invariant_holds_witness :
    recvKeyA.msg_type_url ∈ msgUrls ∧ MsgKeyInvariant (applyOps corrOpsA) recvKeyA :=
  ⟨by decide, msg_key_invariant_holds corrOpsA recvKeyA (by decide)⟩

/-! ## C1 — re-ingesting the same block

Monotonicity and presence lemmas for the `txs` table, exact packet-growth
counts for every ingest stage, and the re-ingest theorem. -/

/-- `findTx` survives appending rows to `txs`. -/
theorem findTx_mono {chain : String} {t : TxContent} {s s' : Store}
    (h : findTx chain t s) (hext : ∃ ext, s'.txs = s.txs ++ ext) :
    findTx chain t s' := by
  obtain ⟨ext, hx⟩ := hext
  unfold findTx at *
  rw [hx, List.find?_append]
  cases hf : s.txs.find? (fun x => x.chain == chain && x.hash == hexUpper (sha256 t.bytes)) with
  | none => rw [hf] at h; exact absurd h (by simp)
  | some r => simp [hf]

theorem txsPresent_congr {chain : String} {l : List (Option TxContent)} {s s' : Store}
    (h : s'.txs = s.txs) (hp : txsPresent chain l s) : txsPresent chain l s' := by
  intro tx htx t ht
  have := hp tx htx t ht
  unfold findTx at *
  rw [h]
  exact this

/-- An `insert_tx` whose `(chain, hash)` is already present leaves the
store untouched. -/
theorem insert_tx_of_found {s : Store} {chain : String} {t : TxContent}
    (height now : Nat) (h : findTx chain t s) :
    (insert_tx s chain height t now).1 = s := by
  unfold findTx at h
  unfold insert_tx insertTxRow
  dsimp only
  obtain ⟨r, hf⟩ := Option.isSome_iff_exists.mp h
  rw [hf]

/-- `insert_tx` extends `txs` by at most one row. -/
theorem insert_tx_txs_ext (s : Store) (chain : String) (height : Nat)
    (t : TxContent) (now : Nat) :
    ∃ ext, (insert_tx s chain height t now).1.txs = s.txs ++ ext := by
  unfold insert_tx insertTxRow
  dsimp only
  cases hf : s.txs.find? (fun x => x.chain == chain && x.hash == hexUpper (sha256 t.bytes)) with
  | none => exact ⟨_, rfl⟩
  | some r => exact ⟨[], by simp⟩

/-- After `insert_tx`, the transaction's row is findable. -/
theorem insert_tx_establishes (s : Store) (chain : String) (height : Nat)
    (t : TxContent) (now : Nat) :
    findTx chain t (insert_tx s chain height t now).1 := by
  unfold findTx insert_tx insertTxRow
  dsimp only
  cases hf : s.txs.find? (fun x => x.chain == chain && x.hash == hexUpper (sha256 t.bytes)) with
  | none =>
    dsimp only
    rw [List.find?_append, hf]
    simp
  | some r => simp [hf]

/-- The correlation step never touches `txs`, on success and on error
alike. -/
theorem process_msg_txs (s : Store) (chain : String) (txr : TxRow) (url : String)
    (msg : Msg) (now : Nat) :
    (resStore (process_msg s chain txr url msg now)).txs = s.txs := by
  unfold process_msg
  cases htr : msg.transfer with
  | some t => rfl
  | none =>
    cases hpk : msg.packet with
    | none => rfl
    | some packet =>
      dsimp only
      simp only [emit_txs]
      cases hE : probeExisting (emit s (MetricEvent.chainpulsePackets chain)) packet url with
      | none => rfl
      | some ex =>
        dsimp only
        cases hf : s.txs.find? (fun t => t.id == ex.tx_id) with
        | none => rfl
        | some etx => rfl

/-- The event dispatch loop never touches `txs`. -/
theorem process_tx_events_txs (chain : String) (txr : TxRow) (now : Nat) :
    ∀ (evts : List TxEvent) (s : Store),
      (process_tx_events s chain txr now evts).txs = s.txs := by
  intro evts
  induction evts with
  | nil => intro s; rfl
  | cons e t ih =>
    intro s
    simp only [process_tx_events]
    rw [ih]
    split_ifs <;> rfl

/-- The message loop never touches `txs`. -/
theorem processMsgs_txs (chain : String) (txr : TxRow) (now : Nat) :
    ∀ (msgs : List AnyMsg) (s : Store),
      (resStore (processMsgs s chain txr now msgs)).txs = s.txs := by
  intro msgs
  induction msgs with
  | nil => intro s; rfl
  | cons a rest ih =>
    intro s
    simp only [processMsgs]
    cases hd : Msg.decode a with
    | error e => exact ih s
    | ok m =>
      dsimp only
      by_cases hrel : m.is_ibc = true ∧ m.is_relevant = true
      · rw [if_pos hrel]
        cases hpm : process_msg s chain txr a.type_url m now with
        | error es =>
          have := process_msg_txs s chain txr a.type_url m now
          rw [hpm] at this
          exact this
        | ok s' =>
          have h1 := process_msg_txs s chain txr a.type_url m now
          rw [hpm] at h1
          rw [ih s']
          exact h1
      · rw [if_neg hrel]
        exact ih s

theorem findTx_congr {chain : String} {t : TxContent} {s s' : Store}
    (h : s'.txs = s.txs) (hf : findTx chain t s) : findTx chain t s' := by
  unfold findTx at *
  rw [h]
  exact hf

/-- Processing a transaction whose row is already present leaves `txs`
unchanged (also on error). -/
theorem processTx_txs_of_present (s : Store) (chain : String) (height now : Nat)
    (tx : Option TxContent) (h : ∀ t, tx = some t → findTx chain t s) :
    (resStore (processTx s chain height now tx)).txs = s.txs := by
  cases tx with
  | none => rfl
  | some t =>
    have hft : findTx chain t (emit s (MetricEvent.chainpulseTxs chain)) :=
      findTx_congr rfl (h t rfl)
    have hfound := insert_tx_of_found (s := emit s (MetricEvent.chainpulseTxs chain))
      height now hft
    simp only [processTx]
    rcases hins : insert_tx (emit s (MetricEvent.chainpulseTxs chain)) chain height t now
      with ⟨s₁, txr⟩
    have hs₁ : s₁ = emit s (MetricEvent.chainpulseTxs chain) := by
      rw [hins] at hfound
      exact hfound
    cases hb : t.body with
    | none => rw [hs₁]; rfl
    | some body =>
      rw [processMsgs_txs chain txr now body.messages s₁, hs₁]
      rfl

/-- A transaction loop over already-present transactions leaves `txs`
unchanged (also on error). -/
theorem processTxs_txs_of_present (chain : String) (height now : Nat) :
    ∀ (l : List (Option TxContent)) (s : Store), txsPresent chain l s →
      (resStore (processTxs s chain height now l)).txs = s.txs := by
  intro l
  induction l with
  | nil => intro s _; rfl
  | cons tx rest ih =>
    intro s h
    have hhead : ∀ t, tx = some t → findTx chain t s :=
      fun t ht => h tx (List.mem_cons_self tx rest) t ht
    have htail : txsPresent chain rest s :=
      fun tx' htx' t ht => h tx' (List.mem_cons_of_mem _ htx') t ht
    simp only [processTxs]
    cases hstep : processTx s chain height now tx with
    | error es =>
      have := processTx_txs_of_present s chain height now tx hhead
      rw [hstep] at this
      exact this
    | ok s' =>
      have hts' : s'.txs = s.txs := by
        have := processTx_txs_of_present s chain height now tx hhead
        rw [hstep] at this
        exact this
      rw [ih s' (txsPresent_congr hts' htail), hts']

/-- A successful transaction step only appends to `txs`. -/
theorem processTx_txs_ext (s : Store) (chain : String) (height now : Nat)
    (tx : Option TxContent) (s₁ : Store)
    (h : processTx s chain height now tx = Except.ok s₁) :
    ∃ ext, s₁.txs = s.txs ++ ext := by
  cases tx with
  | none => exact absurd h (by simp [processTx])
  | some t =>
    simp only [processTx] at h
    rcases hins : insert_tx (emit s (MetricEvent.chainpulseTxs chain)) chain height t now
      with ⟨s', txr⟩
    rw [hins] at h
    obtain ⟨ext, hx⟩ := insert_tx_txs_ext (emit s (MetricEvent.chainpulseTxs chain))
      chain height t now
    rw [hins] at hx
    cases hb : t.body with
    | none => rw [hb] at h; exact absurd h (by simp)
    | some body =>
      rw [hb] at h
      dsimp only at h hx
      refine ⟨ext, ?_⟩
      have hp := processMsgs_txs chain txr now body.messages s'
      rw [h] at hp
      simp only [resStore] at hp
      rw [hp]
      exact hx

/-- A successful transaction step makes its own row findable. -/
theorem processTx_establishes (s : Store) (chain : String) (height now : Nat)
    (t : TxContent) (s₁ : Store)
    (h : processTx s chain height now (some t) = Except.ok s₁) :
    findTx chain t s₁ := by
  simp only [processTx] at h
  rcases hins : insert_tx (emit s (MetricEvent.chainpulseTxs chain)) chain height t now
    with ⟨s', txr⟩
  rw [hins] at h
  have hest := insert_tx_establishes (emit s (MetricEvent.chainpulseTxs chain))
    chain height t now
  rw [hins] at hest
  cases hb : t.body with
  | none => rw [hb] at h; exact absurd h (by simp)
  | some body =>
    rw [hb] at h
    dsimp only at h hest
    have hp := processMsgs_txs chain txr now body.messages s'
    rw [h] at hp
    simp only [resStore] at hp
    exact findTx_congr hp hest

/-- A successful transaction loop only appends to `txs`. -/
theorem processTxs_txs_ext (chain : String) (height now : Nat) :
    ∀ (l : List (Option TxContent)) (s s₁ : Store),
      processTxs s chain height now l = Except.ok s₁ →
      ∃ ext, s₁.txs = s.txs ++ ext := by
  intro l
  induction l with
  | nil =>
    intro s s₁ h
    simp only [processTxs] at h
    cases h
    exact ⟨[], by simp⟩
  | cons tx rest ih =>
    intro s s₁ h
    simp only [processTxs] at h
    cases hstep : processTx s chain height now tx with
    | error es => rw [hstep] at h; exact absurd h (by simp)
    | ok s' =>
      rw [hstep] at h
      obtain ⟨e1, h1⟩ := processTx_txs_ext s chain height now tx s' hstep
      obtain ⟨e2, h2⟩ := ih s' s₁ h
      exact ⟨e1 ++ e2, by rw [h2, h1, List.append_assoc]⟩

/-- After a successful transaction loop, every decodable transaction of the
list is present. -/
theorem processTxs_present (chain : String) (height now : Nat) :
    ∀ (l : List (Option TxContent)) (s s₁ : Store),
      processTxs s chain height now l = Except.ok s₁ →
      txsPresent chain l s₁ := by
  intro l
  induction l with
  | nil => intro s s₁ _ tx htx; exact absurd htx (List.not_mem_nil tx)
  | cons tx rest ih =>
    intro s s₁ h
    simp only [processTxs] at h
    cases hstep : processTx s chain height now tx with
    | error es => rw [hstep] at h; exact absurd h (by simp)
    | ok s' =>
      rw [hstep] at h
      intro tx' htx' t ht
      rcases List.mem_cons.mp htx' with heq | hmem
      · subst heq
        subst ht
        obtain ⟨ext, hx⟩ := processTxs_txs_ext chain height now rest s' s₁ h
        exact findTx_mono (processTx_establishes s chain height now t s' hstep) ⟨ext, hx⟩
      · exact ih s' s₁ h tx' hmem t ht

/-- The block-results loop over present transactions leaves `txs` unchanged
(also on error). -/
theorem processBlockResults_txs_of_present (chain : String) (height now : Nat)
    (blockData : List (Option TxContent)) :
    ∀ (rs : List (Nat × TxResult)) (s : Store), txsPresent chain blockData s →
      (resStore (processBlockResults s chain height now blockData rs)).txs = s.txs := by
  intro rs
  induction rs with
  | nil => intro s _; rfl
  | cons itr rest ih =>
    intro s h
    obtain ⟨idx, tr⟩ := itr
    simp only [processBlockResults]
    cases hg : blockData.get? idx with
    | none => exact ih s h
    | some tx =>
      cases tx with
      | none => rfl
      | some t =>
        have hft : findTx chain t s := h (some t) (List.get?_mem hg) t rfl
        have hfound := insert_tx_of_found (s := s) height now hft
        dsimp only
        rw [hfound]
        have h2 := process_tx_events_txs chain ((insert_tx s chain height t now).2)
          now tr.events s
        rw [ih _ (txsPresent_congr h2 h), h2]

/-- A successful block-results loop only appends to `txs`. -/
theorem processBlockResults_txs_ext (chain : String) (height now : Nat)
    (blockData : List (Option TxContent)) :
    ∀ (rs : List (Nat × TxResult)) (s s₁ : Store),
      processBlockResults s chain height now blockData rs = Except.ok s₁ →
      ∃ ext, s₁.txs = s.txs ++ ext := by
  intro rs
  induction rs with
  | nil =>
    intro s s₁ h
    simp only [processBlockResults] at h
    cases h
    exact ⟨[], by simp⟩
  | cons itr rest ih =>
    intro s s₁ h
    obtain ⟨idx, tr⟩ := itr
    simp only [processBlockResults] at h
    cases hg : blockData.get? idx with
    | none =>
      rw [hg] at h
      exact ih s s₁ h
    | some tx =>
      rw [hg] at h
      cases tx with
      | none => exact absurd h (by simp)
      | some t =>
        obtain ⟨e1, h1⟩ := insert_tx_txs_ext s chain height t now
        dsimp only at h
        obtain ⟨e2, h2⟩ := ih _ _ h
        refine ⟨e1 ++ e2, ?_⟩
        rw [h2, process_tx_events_txs chain ((insert_tx s chain height t now).2)
          now tr.events ((insert_tx s chain height t now).1), h1, List.append_assoc]

/-- One `send_packet` event insert adds exactly one row. -/
theorem send_event_packets_len (s : Store) (chain : String) (txr : TxRow)
    (e : TxEvent) (now : Nat) :
    (process_send_packet_event s chain txr e now).packets.length =
      s.packets.length + 1 := by
  unfold process_send_packet_event
  dsimp only
  simp [insertPacketRow, emit]

/-- The ack update does not change the number of rows. -/
theorem ack_event_packets_len (s : Store) (txr : TxRow) (e : TxEvent) :
    (process_acknowledge_packet_event s txr e).packets.length = s.packets.length := by
  unfold process_acknowledge_packet_event
  dsimp only
  rw [List.length_map]

/-- The timeout update does not change the number of rows. -/
theorem timeout_event_packets_len (s : Store) (txr : TxRow) (e : TxEvent) :
    (process_timeout_packet_event s txr e).packets.length = s.packets.length := by
  unfold process_timeout_packet_event
  dsimp only
  rw [List.length_map]

/-- The event loop of one transaction result adds exactly one row per
`send_packet` event. -/
theorem process_tx_events_packets_len (chain : String) (txr : TxRow) (now : Nat) :
    ∀ (evts : List TxEvent) (s : Store),
      (process_tx_events s chain txr now evts).packets.length =
        s.packets.length + sendEventCount evts := by
  intro evts
  induction evts with
  | nil => intro s; rfl
  | cons e t ih =>
    intro s
    simp only [process_tx_events]
    rw [ih]
    unfold sendEventCount
    rw [List.filter_cons]
    by_cases hse : e.type_str = "send_packet"
    · have hb : (e.type_str == "send_packet") = true := by simpa using hse
      rw [if_pos hse, if_pos hb, send_event_packets_len]
      simp only [List.length_cons]
      omega
    · have hb : ¬ ((e.type_str == "send_packet") = true) := by simpa using hse
      rw [if_neg hse, if_neg hb]
      by_cases hr : e.type_str = "recv_packet"
      · rw [if_pos hr]
      · rw [if_neg hr]
        by_cases ha : e.type_str = "acknowledge_packet"
        · rw [if_pos ha, ack_event_packets_len]
        · rw [if_neg ha]
          by_cases hto : e.type_str = "timeout_packet"
          · rw [if_pos hto, timeout_event_packets_len]
          · rw [if_neg hto]

/-- A successful correlation step appends exactly one row when the message
carries a packet, and none otherwise. -/
theorem process_msg_packets_len (s : Store) (chain : String) (txr : TxRow)
    (url : String) (m : Msg) (now : Nat) (s₁ : Store)
    (h : process_msg s chain txr url m now = Except.ok s₁) :
    s₁.packets.length =
      s.packets.length + (if m.transfer.isNone ∧ m.packet.isSome then 1 else 0) := by
  unfold process_msg at h
  cases htr : m.transfer with
  | some t =>
    rw [htr] at h
    dsimp only at h
    cases h
    simp [process_transfer, emit, htr]
  | none =>
    rw [htr] at h
    cases hpk : m.packet with
    | none =>
      rw [hpk] at h
      cases h
      simp [htr, hpk]
    | some packet =>
      rw [hpk] at h
      dsimp only at h
      cases hE : probeExisting (emit s (MetricEvent.chainpulsePackets chain)) packet url with
      | none =>
        rw [hE] at h
        cases h
        simp [htr, hpk, insertPacketRow, emit]
      | some ex =>
        rw [hE] at h
        simp only [emit_txs] at h
        cases hf : s.txs.find? (fun t => t.id == ex.tx_id) with
        | none => rw [hf] at h; exact absurd h (by simp)
        | some etx =>
          rw [hf] at h
          cases h
          simp [htr, hpk, insertPacketRow, emit]

/-- A successful message loop appends one row per inserting message. -/
theorem processMsgs_packets_len (chain : String) (txr : TxRow) (now : Nat) :
    ∀ (msgs : List AnyMsg) (s s₁ : Store),
      processMsgs s chain txr now msgs = Except.ok s₁ →
      s₁.packets.length = s.packets.length + (msgs.filter msgInserts).length := by
  intro msgs
  induction msgs with
  | nil =>
    intro s s₁ h
    simp only [processMsgs] at h
    cases h
    rfl
  | cons a rest ih =>
    intro s s₁ h
    simp only [processMsgs] at h
    cases hd : Msg.decode a with
    | error e =>
      rw [hd] at h
      have hmi : msgInserts a = false := by unfold msgInserts; rw [hd]
      rw [List.filter_cons_of_neg (by simp [hmi])]
      exact ih s s₁ h
    | ok m =>
      rw [hd] at h
      dsimp only at h
      by_cases hrel : m.is_ibc = true ∧ m.is_relevant = true
      · rw [if_pos hrel] at h
        cases hpm : process_msg s chain txr a.type_url m now with
        | error es => rw [hpm] at h; exact absurd h (by simp)
        | ok s' =>
          rw [hpm] at h
          dsimp only at h
          have hlen := process_msg_packets_len s chain txr a.type_url m now s' hpm
          have hmi : msgInserts a = (m.transfer.isNone && m.packet.isSome) := by
            unfold msgInserts
            rw [hd]
            dsimp only
            rw [hrel.1, hrel.2]
            simp
          by_cases hip : m.transfer.isNone ∧ m.packet.isSome
          · rw [List.filter_cons_of_pos
              (by rw [hmi]; simp [hip.1, hip.2])]
            rw [if_pos hip] at hlen
            rw [ih s' s₁ h, hlen, List.length_cons]
            omega
          · rw [List.filter_cons_of_neg
              (by rw [hmi]; simpa [Bool.and_eq_true] using hip)]
            rw [if_neg hip] at hlen
            rw [ih s' s₁ h, hlen]
            omega
      · rw [if_neg hrel] at h
        have hmi : msgInserts a = false := by
          unfold msgInserts
          rw [hd]
          rcases Decidable.not_and_iff_or_not.mp hrel with hni | hnr
          · simp [Bool.eq_false_iff.mpr hni]
          · simp [Bool.eq_false_iff.mpr hnr]
        rw [List.filter_cons_of_neg (by simp [hmi])]
        exact ih s s₁ h

/-- A successful transaction step appends `txInsertCount` rows. -/
theorem processTx_packets_len (s : Store) (chain : String) (height now : Nat)
    (tx : Option TxContent) (s₁ : Store)
    (h : processTx s chain height now tx = Except.ok s₁) :
    s₁.packets.length = s.packets.length + txInsertCount tx := by
  cases tx with
  | none => exact absurd h (by simp [processTx])
  | some t =>
    simp only [processTx] at h
    obtain ⟨bytes, tbody⟩ := t
    cases hb : tbody with
    | none =>
      rw [hb] at h
      dsimp only at h
      exact absurd h (by simp)
    | some body =>
      rw [hb] at h
      dsimp only at h
      have hlen := processMsgs_packets_len chain
        ((insert_tx (emit s (MetricEvent.chainpulseTxs chain)) chain height
          ⟨bytes, some body⟩ now).2) now body.messages _ _ h
      rw [hlen]
      rw [insert_tx_fst_packets]
      rfl

/-- A successful transaction loop appends the summed counts. -/
theorem processTxs_packets_len (chain : String) (height now : Nat) :
    ∀ (l : List (Option TxContent)) (s s₁ : Store),
      processTxs s chain height now l = Except.ok s₁ →
      s₁.packets.length = s.packets.length + (l.map txInsertCount).sum := by
  intro l
  induction l with
  | nil =>
    intro s s₁ h
    simp only [processTxs] at h
    cases h
    rfl
  | cons tx rest ih =>
    intro s s₁ h
    simp only [processTxs] at h
    cases hstep : processTx s chain height now tx with
    | error es => rw [hstep] at h; exact absurd h (by simp)
    | ok s' =>
      rw [hstep] at h
      rw [ih s' s₁ h, processTx_packets_len s chain height now tx s' hstep]
      simp [List.map_cons, List.sum_cons]
      omega

/-- A successful block-results loop appends the summed event counts. -/
theorem processBlockResults_packets_len (chain : String) (height now : Nat)
    (blockData : List (Option TxContent)) :
    ∀ (rs : List (Nat × TxResult)) (s s₁ : Store),
      processBlockResults s chain height now blockData rs = Except.ok s₁ →
      s₁.packets.length = s.packets.length + resultsInsertCount blockData rs := by
  intro rs
  induction rs with
  | nil =>
    intro s s₁ h
    simp only [processBlockResults] at h
    cases h
    rfl
  | cons itr rest ih =>
    intro s s₁ h
    obtain ⟨idx, tr⟩ := itr
    simp only [processBlockResults] at h
    unfold resultsInsertCount
    cases hg : blockData.get? idx with
    | none =>
      rw [hg] at h
      dsimp only at h ⊢
      rw [ih s s₁ h]
      omega
    | some tx =>
      rw [hg] at h
      cases tx with
      | none =>
        dsimp only at h
        exact absurd h (by simp)
      | some t =>
        dsimp only at h ⊢
        rw [ih _ s₁ h]
        rw [process_tx_events_packets_len chain
          ((insert_tx s chain height t now).2) now tr.events]
        rw [insert_tx_fst_packets]
        omega

theorem txsPresent_mono {chain : String} {l : List (Option TxContent)} {s s' : Store}
    (hp : txsPresent chain l s) (hext : ∃ ext, s'.txs = s.txs ++ ext) :
    txsPresent chain l s' :=
  fun tx htx t ht => findTx_mono (hp tx htx t ht) hext

/-- A successful block ingest appends exactly `blockInsertCount` packet
rows. -/
theorem processBlock_packets_len (supports_events : Bool) (s : Store)
    (chain : String) (b : Block) (now : Nat) (s₁ : Store)
    (h : processBlock supports_events s chain b now = Except.ok s₁) :
    s₁.packets.length = s.packets.length + blockInsertCount supports_events b := by
  unfold processBlock at h
  cases hpt : processTxs s chain b.height now b.data with
  | error es => rw [hpt] at h; exact absurd h (by simp)
  | ok s₀ =>
    rw [hpt] at h
    dsimp only at h
    have h1 := processTxs_packets_len chain b.height now b.data s s₀ hpt
    unfold blockInsertCount
    cases supports_events with
    | false =>
      simp only [Bool.false_eq_true, if_false] at h ⊢
      cases h
      omega
    | true =>
      simp only [if_true] at h ⊢
      cases hr : b.results with
      | none =>
        rw [hr] at h
        dsimp only at h ⊢
        cases h
        omega
      | some block_results =>
        rw [hr] at h
        dsimp only at h ⊢
        have h2 := processBlockResults_packets_len chain b.height now b.data
          block_results.enum s₀ s₁ h
        omega

/-- Ingesting a block whose transactions are all present leaves `txs`
unchanged (also on error). -/
theorem processBlock_txs_of_present (supports_events : Bool) (s : Store)
    (chain : String) (b : Block) (now : Nat)
    (hp : blockTxsPresent chain b s) :
    (resStore (processBlock supports_events s chain b now)).txs = s.txs := by
  unfold processBlock
  unfold blockTxsPresent at hp
  cases hpt : processTxs s chain b.height now b.data with
  | error es =>
    have := processTxs_txs_of_present chain b.height now b.data s hp
    rw [hpt] at this
    exact this
  | ok s₀ =>
    have hts : s₀.txs = s.txs := by
      have := processTxs_txs_of_present chain b.height now b.data s hp
      rw [hpt] at this
      exact this
    dsimp only
    cases supports_events with
    | false => exact hts
    | true =>
      simp only [if_true]
      cases hr : b.results with
      | none => exact hts
      | some block_results =>
        have := processBlockResults_txs_of_present chain b.height now b.data
          block_results.enum s₀ (txsPresent_congr hts hp)
        rw [this, hts]

/-- After a successful block ingest every decodable transaction of the
block is present. -/
theorem processBlock_present (supports_events : Bool) (s : Store)
    (chain : String) (b : Block) (now : Nat) (s₁ : Store)
    (h : processBlock supports_events s chain b now = Except.ok s₁) :
    blockTxsPresent chain b s₁ := by
  unfold processBlock at h
  cases hpt : processTxs s chain b.height now b.data with
  | error es => rw [hpt] at h; exact absurd h (by simp)
  | ok s₀ =>
    rw [hpt] at h
    dsimp only at h
    have hp₀ : blockTxsPresent chain b s₀ :=
      processTxs_present chain b.height now b.data s s₀ hpt
    cases supports_events with
    | false =>
      simp only [Bool.false_eq_true, if_false] at h
      cases h
      exact hp₀
    | true =>
      simp only [if_true] at h
      cases hr : b.results with
      | none =>
        rw [hr] at h
        cases h
        exact hp₀
      | some block_results =>
        rw [hr] at h
        exact txsPresent_mono hp₀
          (processBlockResults_txs_ext chain b.height now b.data
            block_results.enum s₀ s₁ h)

/-- C1 amended: a successful ingest of a block appends exactly
`blockInsertCount` packet rows (one per decodable, relevant,
packet-carrying message and per `send_packet` event of a present
transaction result), leaves every decodable transaction present, and — when
the block's transactions were already present, as they are after a previous
ingest of the same block — leaves the `txs` table exactly unchanged.  So
re-ingesting the same block N times leaves `txs` as after one ingest but
grows `packets` by the same count every time: the store is *not* idempotent
whenever the block carries a packet message or a `send_packet` event. -/
theorem reingest_txs_idempotent_packets_grow (supports_events : Bool)
    (chain : String) (b : Block) (now : Nat) (s s₁ : Store)
    (h : processBlock supports_events s chain b now = Except.ok s₁) :
    s₁.packets.length = s.packets.length + blockInsertCount supports_events b ∧
    blockTxsPresent chain b s₁ ∧
    (blockTxsPresent chain b s → s₁.txs = s.txs) := by
  refine ⟨processBlock_packets_len supports_events s chain b now s₁ h,
    processBlock_present supports_events s chain b now s₁ h, fun hp => ?_⟩
  have := processBlock_txs_of_present supports_events s chain b now hp
  rw [h] at this
  simpa [resStore] using this

/-- C1 witness: ingesting the concrete one-`MsgRecvPacket` block into the
empty store succeeds, appends one packet row, and satisfies the re-ingest
conclusion. -/
theorem reingest_txs_idempotent_packets_grow_witness :
    processBlock false Store.empty "a-1" blockA 0 = Except.ok storeA1 ∧
    (storeA1.packets.length = Store.empty.packets.length + blockInsertCount false blockA ∧
     blockTxsPresent "a-1" blockA storeA1 ∧
     (blockTxsPresent "a-1" blockA Store.empty → storeA1.txs = Store.empty.txs)) :=
  ⟨rfl, reingest_txs_idempotent_packets_grow false "a-1" blockA 0 Store.empty storeA1 rfl⟩

set_option maxRecDepth 8192 in
/-- C1 counterexample: ingesting the same block twice does not reproduce
the single-ingest store — the second ingest appends a second (uneffected)
packet row, although the `txs` table is unchanged. -/
theorem reingest_not_idempotent_counterexample :
    storeA1.packets.length = 1 ∧ storeA2.packets.length = 2 ∧
    storeA2.txs = storeA1.txs ∧ storeA2 ≠ storeA1 := by
  refine ⟨rfl, rfl, rfl, fun he => ?_⟩
  have h2 : storeA2.packets.length = storeA1.packets.length := by rw [he]
  rw [show storeA2.packets.length = 2 from rfl,
    show storeA1.packets.length = 1 from rfl] at h2
  exact absurd h2 (by decide)

end Chainpulse
